import Mathlib

/-!  Verification development for the resp_metrics package: the comment-based
cycle segmenter (cycles.py), the spontaneous ventilatory metric engine
(ventilatory.py) and the mechanical ventilation metric engine
(mechanical_vent.py).

Modelling conventions of the shallow embedding:
* float values carried by the data are modelled as rationals; a value the
  Python code sets to floating NaN is modelled as `Option.none`, and every
  `np.isfinite` test becomes an `Option` case split;
* a pandas DataFrame of waveform samples is an association list of named
  rational columns; `df.empty` is `all columns empty`;
* a pandas boolean-mask selection such as `t[lab == label]` is a
  `filterMap` over the paired rows;
* Python slices `a[i:j]` clip out-of-range bounds exactly like
  `(a.take j).drop i`;
* `pandas.sort_values` is modelled by a stable insertion sort on the key;
* `np.nanmin` / `np.nanmax` / `np.nanmedian` act on all-finite data here,
  so they are the plain minimum / maximum / median, returning `none` on an
  empty selection exactly where numpy yields NaN (or where the code guards
  with `if ... .size` / `np.any`).
-/

namespace RespMetrics

/-- One comment row of the `comments_df` input of `cycles_from_comments`:
block-relative timestamp, block index, label text. -/
structure CommentRow where
  time_block : ℚ
  block : Int
  comment : String
deriving DecidableEq

/-- Whitespace test used by strip. -/
def isWS (c : Char) : Bool := c = ' ' || c = '\t' || c = '\n' || c = '\r'

/-- Python `str.strip()` over the character list: drop whitespace from both
ends. -/
def trimChars (l : List Char) : List Char :=
  ((l.dropWhile isWS).reverse.dropWhile isWS).reverse

/-- Python `str.upper()` (ASCII case mapping suffices for the label
alphabet in play). -/
def strUpper (s : String) : String := ⟨s.data.map Char.toUpper⟩

/-- Label normalisation of cycles.py line 53:
`c["Comment"].astype(str).str.strip().str.upper()`. -/
def normLabel (s : String) : String := ⟨(trimChars s.data).map Char.toUpper⟩

/-- The rows of the requested block, cycles.py line 50. -/
def blockFilter (cs : List CommentRow) (block : Int) : List CommentRow :=
  cs.filter (fun r => r.block == block)

/-- The time stamps of the block's events carrying the given label
(cycles.py lines 53-58, the boolean-mask selection `t[lab == label]`). -/
def labelTimes (cs : List CommentRow) (block : Int) (label : String) : List ℚ :=
  (blockFilter cs block).filterMap
    (fun r => if normLabel r.comment == strUpper label then some r.time_block else none)

/-- One raw cycle produced by the loop of cycles.py lines 60-69:
inspiration onset, first later expiration onset, next inspiration onset. -/
structure RawCycle where
  ti : ℚ
  te : ℚ
  nx : ℚ
deriving DecidableEq

/-- The loop of cycles.py lines 61-69: iterate over `t_inspi[:-1]` together
with the following inspiration onset; keep the pair whenever some
expiration onset lies strictly after the inspiration onset, taking the
first such (`ex_after[0]`). -/
def mkCycleRows : List ℚ → List ℚ → List RawCycle
  | t1 :: t2 :: rest, exps =>
      (match exps.filter (fun e => decide (t1 < e)) with
       | [] => []
       | te :: _ => [⟨t1, te, t2⟩]) ++ mkCycleRows (t2 :: rest) exps
  | _, _ => []

/-- One row of the segmenter's output DataFrame. -/
structure CycleRow where
  n_cycle : ℕ
  t_inspi : ℚ
  t_expi : ℚ
  t_next_inspi : Option ℚ
deriving DecidableEq

/-- The segmenter's output: the DataFrame's column list plus its rows. -/
structure CyclesOut where
  cols : List String
  rows : List CycleRow
deriving DecidableEq

/-- Schema of the segmenter's output table (cycles.py lines 47 and 52). -/
def cyclesSchema : List String := ["n_cycle", "t_inspi", "t_expi", "t_next_inspi"]

/-- cycles_from_comments (cycles.py lines 15-74).  `none` models passing
`None` for `comments_df`.  Note that `pd.DataFrame([])` of an empty row
list has no columns at all, hence the bare `⟨[], []⟩` when the block has
events but no complete cycle. -/
def cycles_from_comments (comments : Option (List CommentRow)) (block : Int)
    (insp_label expi_label : String) : CyclesOut :=
  match comments with
  | none => ⟨cyclesSchema, []⟩
  | some cs =>
    if cs.isEmpty then ⟨cyclesSchema, []⟩ else
    if (blockFilter cs block).isEmpty then ⟨cyclesSchema, []⟩ else
    let t_inspi := labelTimes cs block insp_label
    let t_expi := labelTimes cs block expi_label
    let raw := mkCycleRows t_inspi t_expi
    if raw.isEmpty then ⟨[], []⟩
    else ⟨cyclesSchema, raw.enum.map (fun p => ⟨p.1 + 1, p.2.ti, p.2.te, some p.2.nx⟩)⟩

/-- A waveform DataFrame: named rational columns (all of equal length in
actual pandas data). -/
structure DF where
  cols : List (String × List ℚ)
deriving DecidableEq

/-- Column lookup by name. -/
def DF.col (df : DF) (name : String) : Option (List ℚ) :=
  (df.cols.find? (fun c => c.1 == name)).map (fun c => c.2)

/-- Column-presence test (`name in df.columns`). -/
def DF.hasCol (df : DF) (name : String) : Bool := (df.col name).isSome

/-- `df.empty`: no rows (a table with no columns is empty as well). -/
def DF.isEmpty (df : DF) : Bool := df.cols.all (fun c => c.2.isEmpty)

/-- One row of the engines' `cycles_df` input; `none` in a time field models
a missing (NaN) entry that `dropna` removes. -/
structure CycleInRow where
  t_insp : Option ℚ
  t_expi : Option ℚ
  n_cycle : Int
deriving DecidableEq

/-- The engines' `cycles_df` input.  The flags record which of the columns
`t_insp`, legacy `t_inspi`, `t_expi` and `n_cycle` the table exposes (the
row payload is the same either way). -/
structure CyclesDF where
  hasTi : Bool
  hasTiLegacy : Bool
  hasTe : Bool
  hasN : Bool
  rows : List CycleInRow
deriving DecidableEq

/-- `cycles_df.empty`. -/
def CyclesDF.isEmpty (c : CyclesDF) : Bool := c.rows.isEmpty

/-- `dropna(subset=[ti_col, te_col])`: keep the rows carrying both times. -/
def survivors (c : CyclesDF) : List (Int × ℚ × ℚ) :=
  c.rows.filterMap (fun r =>
    match r.t_insp, r.t_expi with
    | some a, some b => some (r.n_cycle, a, b)
    | _, _ => none)

/-- `sort_values(ti_col)` on the surviving rows (modelled stable). -/
def sortCyc (l : List (Int × ℚ × ℚ)) : List (Int × ℚ × ℚ) :=
  List.insertionSort (fun a b => a.2.1 ≤ b.2.1) l

/-- `cyc.insert(0, 'n_cycle', range(1, len+1))` when the input table has no
`n_cycle` column; the existing numbers are kept otherwise. -/
def renumber (hasN : Bool) (l : List (Int × ℚ × ℚ)) : List (Int × ℚ × ℚ) :=
  if hasN then l else l.enum.map (fun p => ((p.1 : Int) + 1, p.2.2))

/-- A fully prepared cycle: number, inspiration time, expiration time and
the shifted next inspiration time. -/
structure ProcCycle where
  n : Int
  ti : ℚ
  te : ℚ
  tn : Option ℚ
deriving DecidableEq

/-- `cyc['t_next_insp'] = cyc[ti_col].shift(-1)`: each row is paired with
the following row's inspiration time; the final row gets `none`. -/
def addNext : List (Int × ℚ × ℚ) → List ProcCycle
  | [] => []
  | x :: rest => ⟨x.1, x.2.1, x.2.2, rest.head?.map (fun y => y.2.1)⟩ :: addNext rest

/-- The shared cycle preparation of ventilatory.py lines 112-118 and
mechanical_vent.py lines 80-85 (the code is duplicated verbatim). -/
def processCycles (c : CyclesDF) : List ProcCycle :=
  addNext (renumber c.hasN (sortCyc (survivors c)))

/-- `_nearest_idx` (ventilatory.py line 40, mechanical_vent.py line 30):
`np.abs(vec - target).argmin()`, the first index attaining the minimal
absolute difference. -/
def nearestIdx : List ℚ → ℚ → ℕ
  | [], _ => 0
  | [_], _ => 0
  | a :: b :: rest, x =>
      let j := nearestIdx (b :: rest) x
      if |(b :: rest).getD j 0 - x| < |a - x| then j + 1 else 0

/-- Summand chain of `np.trapz(y, x)` over the zipped samples. -/
def trapSum : List (ℚ × ℚ) → ℚ
  | p :: q :: rest => (q.1 - p.1) * (p.2 + q.2) / 2 + trapSum (q :: rest)
  | _ => 0

/-- `_trapz` (ventilatory.py line 45, mechanical_vent.py line 35): safe
trapezoidal integral, NaN when fewer than two samples. -/
def trapz (y x : List ℚ) : Option ℚ :=
  if y.length < 2 ∨ x.length < 2 then none else some (trapSum (x.zip y))

/-- Python slice `a[i:j]` (clipping out-of-range bounds). -/
def slice (l : List ℚ) (i j : ℕ) : List ℚ := (l.take j).drop i

/-- Maximum of a sample list, `none` when empty (`np.nanmax` on finite
data, with the empty selection mapped to NaN). -/
def listMax : List ℚ → Option ℚ
  | [] => none
  | a :: rest =>
    match listMax rest with
    | none => some a
    | some m => some (max a m)

/-- Minimum of a sample list, `none` when empty. -/
def listMin : List ℚ → Option ℚ
  | [] => none
  | a :: rest =>
    match listMin rest with
    | none => some a
    | some m => some (min a m)

/-- `np.nanmedian` on finite data: sort, take the middle sample, or the
mean of the two middle samples for even length; `none` on empty input. -/
def median (l : List ℚ) : Option ℚ :=
  if l.isEmpty then none else
  let s := List.insertionSort (fun a b : ℚ => a ≤ b) l
  let n := l.length
  if n % 2 = 1 then some (s.getD (n / 2) 0)
  else some ((s.getD (n / 2 - 1) 0 + s.getD (n / 2) 0) / 2)

/-- One output row of `ventilatory_from_cycles`. -/
structure VentRow where
  n_cycle : Int
  t_insp : ℚ
  t_expi : ℚ
  Ti : Option ℚ
  Ttot : Option ℚ
  Te : Option ℚ
  BF : Option ℚ
  VT : Option ℚ
  VE : Option ℚ
  PIF : Option ℚ
  PEF : Option ℚ
  IE : Option ℚ
deriving DecidableEq

/-- Output schema of the spontaneous engine (ventilatory.py lines 81-87;
identical to the keys of the per-cycle row dict). -/
def ventSchema : List String :=
  ["n_cycle", "t_insp", "t_expi", "Ti", "Ttot", "Te", "BF", "VT", "VE", "PIF", "PEF", "IE"]

/-- The spontaneous engine's output table. -/
structure VentOut where
  cols : List String
  rows : List VentRow
deriving DecidableEq

/-- Loop body of ventilatory.py lines 121-175.  `flow` is the flow column
already divided by 60 (the engine converts before the loop); `vol` is the
volume column when available.  Inspiration is negative flow. -/
def ventCycle (t : List ℚ) (flow vol : Option (List ℚ)) (c : ProcCycle) : VentRow :=
  let i_insp := nearestIdx t c.ti
  let i_expi := nearestIdx t c.te
  let TiV : ℚ := t.getD i_expi 0 - t.getD i_insp 0
  let i_next : Option ℕ := c.tn.map (fun tn => nearestIdx t tn)
  let Ttot : Option ℚ := i_next.map (fun j => t.getD j 0 - t.getD i_insp 0)
  let Te : Option ℚ := Ttot.map (fun tt => tt - TiV)
  let BF : Option ℚ := Ttot.bind (fun tt => if 0 < tt then some (60 / tt) else none)
  let i0 := min i_insp i_expi
  let i1 := max i_insp i_expi
  let VT : Option ℚ :=
    match vol with
    | some v => some (v.getD i_expi 0 - v.getD i_insp 0)
    | none =>
      match flow with
      | some f => (trapz (slice f i0 (i1 + 1)) (slice t i0 (i1 + 1))).map (fun s => -s)
      | none => none
  let VE : Option ℚ :=
    match BF, VT with
    | some b, some v => some (b * v)
    | _, _ => none
  let PIF : Option ℚ :=
    match flow with
    | some f => (listMin (slice f i0 (i1 + 1))).map (fun m => |m|)
    | none => none
  let PEF : Option ℚ :=
    match flow with
    | some f =>
      match i_next with
      | some j => if i_expi < j then listMax (slice f i_expi (j + 1)) else none
      | none => none
    | none => none
  let IE : Option ℚ := Te.bind (fun te => if 0 < te then some (TiV / te) else none)
  ⟨c.n, t.getD i_insp 0, t.getD i_expi 0, some TiV, Ttot, Te, BF, VT, VE, PIF, PEF, IE⟩

/-- ventilatory_from_cycles (ventilatory.py lines 52-177).  `Except.error`
models a raised `KeyError`. -/
def ventilatory_from_cycles (df : Option DF) (cycles : Option CyclesDF)
    (flow_col : String) (volume_col : Option String) : Except String VentOut :=
  match df with
  | none => .ok ⟨ventSchema, []⟩
  | some d =>
    if d.isEmpty then .ok ⟨ventSchema, []⟩ else
    match cycles with
    | none => .ok ⟨ventSchema, []⟩
    | some cyc =>
      if cyc.isEmpty then .ok ⟨ventSchema, []⟩ else
      if ¬ d.hasCol "time_abs" then .error "df_block must contain a time_abs column" else
      let t := (d.col "time_abs").getD []
      let flow := (d.col flow_col).map (fun f => f.map (fun q => q / 60))
      let vol := volume_col.bind (fun vc => d.col vc)
      if ¬ (cyc.hasTi || cyc.hasTiLegacy) then
        .error "cycles_df must contain a t_insp or legacy t_inspi column" else
      if ¬ cyc.hasTe then .error "cycles_df must contain a t_expi column" else
      let proc := processCycles cyc
      .ok ⟨if proc.isEmpty then [] else ventSchema, proc.map (ventCycle t flow vol)⟩

/-- One output row of `mechanical_from_cycles`. -/
structure MechRow where
  n_cycle : Int
  t_insp : ℚ
  t_expi : ℚ
  Ti : Option ℚ
  Ttot : Option ℚ
  Te : Option ℚ
  BF : Option ℚ
  VT : Option ℚ
  VE : Option ℚ
  PIF : Option ℚ
  PEF : Option ℚ
  IE : Option ℚ
  PEEP : Option ℚ
  Ppeak : Option ℚ
  Pplat : Option ℚ
  dP : Option ℚ
  Cstat : Option ℚ
  R : Option ℚ
  MAP : Option ℚ
deriving DecidableEq

/-- Schema of the mechanical engine's EMPTY outputs
(mechanical_vent.py lines 57-59 and 61-63). -/
def mechSchemaEmpty : List String :=
  ["n_cycle", "t_insp", "t_expi", "PEEP", "Ppeak", "Pplat", "dP", "Cstat", "R", "MAP"]

/-- Column list of the mechanical engine's non-empty outputs: the keys of
the per-cycle row dict of mechanical_vent.py lines 188-199. -/
def mechSchemaFull : List String :=
  ["n_cycle", "t_insp", "t_expi", "Ti", "Ttot", "Te", "BF", "VT", "VE", "PIF", "PEF", "IE",
   "PEEP", "Ppeak", "Pplat", "dP", "Cstat", "R", "MAP"]

/-- The mechanical engine's output table. -/
structure MechOut where
  cols : List String
  rows : List MechRow
deriving DecidableEq

/-- Duration `t[b] - t[a]` of an index run (mechanical_vent.py line 150). -/
def runDur (t : List ℚ) (ab : ℕ × ℕ) : ℚ := t.getD ab.2 0 - t.getD ab.1 0

/-- Helper of `groupRuns`: closes the current run `[start, cur]` whenever
the next index is not `cur + 1`. -/
def groupRunsGo (start cur : ℕ) : List ℕ → List (ℕ × ℕ)
  | [] => [(start, cur)]
  | b :: rest => if b = cur + 1 then groupRunsGo start b rest else (start, cur) :: groupRunsGo b b rest

/-- Decomposition of a strictly increasing index list into its maximal runs
of consecutive indices: the `np.diff` / `gaps` / `starts` / `ends`
computation of mechanical_vent.py lines 143-146. -/
def groupRuns : List ℕ → List (ℕ × ℕ)
  | [] => []
  | a :: rest => groupRunsGo a a rest

/-- The trailing-window low-flow index set of mechanical_vent.py lines
135-139: indices whose time lies in the tail window of the inspiratory
span and whose absolute flow is at most the threshold. -/
def lowFlowIdx (t F : List ℚ) (i0 i1 : ℕ) (thresh : ℚ) : List ℕ :=
  let insp_dur := max (t.getD i1 0 - t.getD i0 0) 0
  let tail_win := max (3 / 20 : ℚ) (3 / 10 * insp_dur)
  let t_start_tail := max (t.getD i0 0) (t.getD i1 0 - tail_win)
  (List.range t.length).filter (fun j =>
    decide (t_start_tail ≤ t.getD j 0) && decide (t.getD j 0 ≤ t.getD i1 0)
      && decide (|F.getD j 0| ≤ thresh))

/-- One step of the run-selection loop of mechanical_vent.py lines
148-152: pick the run whenever its duration is at least
`plateau_min_dur` and strictly exceeds the best duration so far. -/
def bestStep (t : List ℚ) (minDur : ℚ) (acc : Option (ℕ × ℕ) × ℚ) (ab : ℕ × ℕ) :
    Option (ℕ × ℕ) × ℚ :=
  let dur := runDur t ab
  if minDur ≤ dur ∧ acc.2 < dur then (some ab, dur) else acc

/-- The run-selection fold of mechanical_vent.py lines 147-152, starting
from `best = None, best_dur = 0.0`. -/
def bestRun (t : List ℚ) (runs : List (ℕ × ℕ)) (minDur : ℚ) : Option (ℕ × ℕ) :=
  (runs.foldl (bestStep t minDur) ((none : Option (ℕ × ℕ)), 0)).1

/-- Pplat of mechanical_vent.py lines 133-155: median pressure over the
selected low-flow run, NaN when no run is selected. -/
def mechPplat (t P F : List ℚ) (i0 i1 : ℕ) (thresh minDur : ℚ) : Option ℚ :=
  (bestRun t (groupRuns (lowFlowIdx t F i0 i1 thresh)) minDur).bind
    (fun ab => median (slice P ab.1 (ab.2 + 1)))

/-- PEEP of mechanical_vent.py lines 125-128: median pressure over the
right-open window `[max(t[0], ti - peep_window), ti)`, NaN when the window
holds no sample. -/
def mechPEEP (t P : List ℚ) (peepW ti : ℚ) : Option ℚ :=
  let t0p := max (t.headD 0) (ti - peepW)
  median (((List.range t.length).filter (fun j =>
    decide (t0p ≤ t.getD j 0) && decide (t.getD j 0 < ti))).map (fun j => P.getD j 0))

/-- Ppeak of mechanical_vent.py line 131 — also the shape of the
re-computed peak inspiratory flow of line 172 (`nanmax` over the
inspiratory span, NaN when the span is a single sample). -/
def mechPpeak (P : List ℚ) (i0 i1 : ℕ) : Option ℚ :=
  if i0 < i1 then listMax (slice P i0 (i1 + 1)) else none

/-- VT of mechanical_vent.py lines 108-111: direct volume difference over
the span when a volume channel exists, else the trapezoidal integral of
the (positive-inspiration) flow. -/
def mechVT (t F : List ℚ) (vol : Option (List ℚ)) (i0 i1 : ℕ) : Option ℚ :=
  match vol with
  | some v => some (v.getD i1 0 - v.getD i0 0)
  | none => trapz (slice F i0 (i1 + 1)) (slice t i0 (i1 + 1))

/-- Driving pressure of mechanical_vent.py lines 157-163: `Pplat - PEEP`
when both finite, else `Ppeak - PEEP` when both finite, else NaN. -/
def mechdP (Pplat PEEP Ppeak : Option ℚ) : Option ℚ :=
  match Pplat, PEEP with
  | some pp, some pe => some (pp - pe)
  | _, _ =>
    match Ppeak, PEEP with
    | some pk, some pe => some (pk - pe)
    | _, _ => none

/-- Static compliance of mechanical_vent.py line 167. -/
def mechCstat (VT Pplat PEEP : Option ℚ) : Option ℚ :=
  match VT, Pplat, PEEP with
  | some v, some pp, some pe => if pe < pp then some (v / (pp - pe)) else none
  | _, _, _ => none

/-- Resistance of mechanical_vent.py lines 169-175 given the re-computed
peak inspiratory flow. -/
def mechR (Ppeak Pplat PIFres : Option ℚ) : Option ℚ :=
  match Ppeak, Pplat with
  | some pk, some pp =>
    if pp < pk then
      PIFres.bind (fun pr => if 0 < pr then some ((pk - pp) / pr) else none)
    else none
  | _, _ => none

/-- Loop body of mechanical_vent.py lines 88-199.  `F` is the flow column
already divided by 60.  Inspiration is positive flow. -/
def mechCycle (t P F : List ℚ) (vol : Option (List ℚ)) (peepW thresh minDur : ℚ)
    (c : ProcCycle) : MechRow :=
  let i_insp := nearestIdx t c.ti
  let i_expi := nearestIdx t c.te
  let i0 := min i_insp i_expi
  let i1 := max i_insp i_expi
  let TiV : ℚ := t.getD i_expi 0 - t.getD i_insp 0
  let i_next : Option ℕ := c.tn.map (fun tn => nearestIdx t tn)
  let Ttot : Option ℚ := i_next.map (fun j => t.getD j 0 - t.getD i_insp 0)
  let Te : Option ℚ := Ttot.map (fun tt => tt - TiV)
  let BF : Option ℚ := Ttot.bind (fun tt => if 0 < tt then some (60 / tt) else none)
  let VT : Option ℚ := mechVT t F vol i0 i1
  let VE : Option ℚ :=
    match BF, VT with
    | some b, some v => some (b * v)
    | _, _ => none
  let PIF : Option ℚ := listMax (slice F i0 (i1 + 1))
  let PEF : Option ℚ :=
    match i_next with
    | some j => if i_expi < j then (listMin (slice F i_expi (j + 1))).map (fun m => |m|) else none
    | none => none
  let IE : Option ℚ := Te.bind (fun te => if 0 < te then some (TiV / te) else none)
  let PEEP := mechPEEP t P peepW c.ti
  let Ppeak := mechPpeak P i0 i1
  let Pplat := mechPplat t P F i0 i1 thresh minDur
  let dP : Option ℚ := mechdP Pplat PEEP Ppeak
  let Cstat : Option ℚ := mechCstat VT Pplat PEEP
  let Rv : Option ℚ := mechR Ppeak Pplat (mechPpeak F i0 i1)
  let i_end : ℕ :=
    match i_next with
    | some j => max i_expi j
    | none => i_expi
  let i2 := max i_insp 0
  let i3 := min i_end (t.length - 1)
  let MAPint := trapz (slice P i2 (i3 + 1)) (slice t i2 (i3 + 1))
  let TtotMap : Option ℚ := if i2 < i3 then some (t.getD i3 0 - t.getD i2 0) else none
  let MAPv : Option ℚ :=
    match MAPint, TtotMap with
    | some m, some tt => if 0 < tt then some (m / tt) else none
    | _, _ => none
  ⟨c.n, t.getD i_insp 0, t.getD i_expi 0, some TiV, Ttot, Te, BF, VT, VE, PIF, PEF, IE,
   PEEP, Ppeak, Pplat, dP, Cstat, Rv, MAPv⟩

/-- mechanical_from_cycles (mechanical_vent.py lines 42-201). -/
def mechanical_from_cycles (df : Option DF) (cycles : Option CyclesDF)
    (flow_col pressure_col : String) (volume_col : Option String)
    (peep_window plateau_flow_thresh plateau_min_dur : ℚ) : Except String MechOut :=
  match df with
  | none => .ok ⟨mechSchemaEmpty, []⟩
  | some d =>
    if d.isEmpty || ¬ (d.hasCol "time_abs" && d.hasCol pressure_col && d.hasCol flow_col) then
      .ok ⟨mechSchemaEmpty, []⟩ else
    match cycles with
    | none => .ok ⟨mechSchemaEmpty, []⟩
    | some cyc =>
      if cyc.isEmpty then .ok ⟨mechSchemaEmpty, []⟩ else
      if ¬ (cyc.hasTi || cyc.hasTiLegacy) then
        .error "cycles_df must contain t_insp or legacy t_inspi" else
      if ¬ cyc.hasTe then .error "cycles_df must contain t_expi" else
      let t := (d.col "time_abs").getD []
      let P := (d.col pressure_col).getD []
      let F := ((d.col flow_col).getD []).map (fun q => q / 60)
      let vol := volume_col.bind (fun vc => d.col vc)
      let proc := processCycles cyc
      .ok ⟨if proc.isEmpty then [] else mechSchemaFull,
           proc.map (mechCycle t P F vol peep_window plateau_flow_thresh plateau_min_dur)⟩

/-- Results and raised errors are comparable for concrete evaluation. -/
instance exceptDecEq {ε α : Type} [DecidableEq ε] [DecidableEq α] :
    DecidableEq (Except ε α)
  | .ok a, .ok b =>
    if h : a = b then .isTrue (by rw [h]) else .isFalse (by intro hc; cases hc; exact h rfl)
  | .error a, .error b =>
    if h : a = b then .isTrue (by rw [h]) else .isFalse (by intro hc; cases hc; exact h rfl)
  | .ok _, .error _ => .isFalse (by intro hc; cases hc)
  | .error _, .ok _ => .isFalse (by intro hc; cases hc)

/-- True exactly when the call returned a table rather than raising. -/
def exceptOk {α : Type} (e : Except String α) : Bool :=
  match e with
  | .ok _ => true
  | .error _ => false

/-- Rows of a spontaneous-engine result (empty when the call raised). -/
def rowsOfV (e : Except String VentOut) : List VentRow :=
  match e with
  | .ok o => o.rows
  | .error _ => []

/-- Column list of a mechanical-engine result (empty when the call raised). -/
def colsOfM (e : Except String MechOut) : List String :=
  match e with
  | .ok o => o.cols
  | .error _ => []

/-- Rows of a mechanical-engine result (empty when the call raised). -/
def rowsOfM (e : Except String MechOut) : List MechRow :=
  match e with
  | .ok o => o.rows
  | .error _ => []

/-- Inspiratory-span start index of a prepared cycle. -/
def idx0 (t : List ℚ) (c : ProcCycle) : ℕ := min (nearestIdx t c.ti) (nearestIdx t c.te)

/-- Inspiratory-span end index of a prepared cycle. -/
def idx1 (t : List ℚ) (c : ProcCycle) : ℕ := max (nearestIdx t c.ti) (nearestIdx t c.te)

/-- The spec-side qualifying plateau runs: the maximal contiguous runs of
trailing-window low-flow samples whose duration is at least
`plateau_min_dur` (spec section 4.4, Pplat). -/
def qualRuns (t F : List ℚ) (i0 i1 : ℕ) (thresh minDur : ℚ) : List (ℕ × ℕ) :=
  (groupRuns (lowFlowIdx t F i0 i1 thresh)).filter (fun ab => decide (minDur ≤ runDur t ab))

section RatEval

/-  `Rat.add`, `Rat.sub`, `Rat.mul` and `Rat.inv` are `@[irreducible]` in
the library, which blocks `decide` on concrete rational computations even
though the kernel reduces them fine; the attribute below only restores
the default reducibility locally so that concrete runs of the embedded
engines can be evaluated. -/
attribute [local semireducible] Rat.add Rat.sub Rat.mul Rat.inv

/-! ### General lemmas about the segmenter -/

/-- Every row produced by the pairing loop pairs an inspiration onset with
the head of the expiration onsets lying strictly after it, and carries the
following inspiration onset. -/
theorem mkCycleRows_mem : ∀ (insp exps : List ℚ) (r : RawCycle), r ∈ mkCycleRows insp exps →
    (exps.filter (fun e => decide (r.ti < e))).head? = some r.te
  | [], _, _, hr => by simp [mkCycleRows] at hr
  | [_], _, _, hr => by simp [mkCycleRows] at hr
  | t1 :: t2 :: rest, exps, r, hr => by
    rw [mkCycleRows] at hr
    rcases List.mem_append.1 hr with h | h
    · rcases hfe : exps.filter (fun e => decide (t1 < e)) with _ | ⟨te, tl⟩
      · rw [hfe] at h; simp at h
      · rw [hfe] at h
        simp only [List.mem_singleton] at h
        subst h
        simp [hfe]
    · exact mkCycleRows_mem (t2 :: rest) exps r h

/-- The inspiration times of the emitted raw cycles form a sublist of the
inspiration-onset sequence. -/
theorem mkCycleRows_ti_sublist : ∀ (insp exps : List ℚ),
    ((mkCycleRows insp exps).map (fun r => r.ti)).Sublist insp
  | [], _ => by simp [mkCycleRows]
  | [a], _ => by simp [mkCycleRows]
  | t1 :: t2 :: rest, exps => by
    rw [mkCycleRows]
    rcases hfe : exps.filter (fun e => decide (t1 < e)) with _ | ⟨te, tl⟩
    · simpa using (mkCycleRows_ti_sublist (t2 :: rest) exps).cons t1
    · simpa using (mkCycleRows_ti_sublist (t2 :: rest) exps).cons₂ t1

/-- Every raw cycle's next-inspiration slot is filled. -/
theorem cycles_rows_next_some (cs : Option (List CommentRow)) (block : Int) (li le : String) :
    ∀ r ∈ (cycles_from_comments cs block li le).rows, r.t_next_inspi.isSome = true := by
  intro r hr
  unfold cycles_from_comments at hr
  split at hr
  · simp at hr
  · split at hr
    · simp at hr
    · split at hr
      · simp at hr
      · dsimp only at hr
        split at hr
        · simp at hr
        · simp only [List.mem_map] at hr
          obtain ⟨p, _, hp⟩ := hr
          rw [← hp]
          rfl

/-- A filterMap that keeps a projection of selected rows yields a sublist
of the full projection. -/
theorem filterMap_ite_sublist_map {α β : Type} (p : α → Bool) (f : α → β) :
    ∀ (l : List α), (l.filterMap (fun r => if p r then some (f r) else none)).Sublist (l.map f)
  | [] => by simp
  | a :: l => by
    by_cases hp : p a
    · simpa [hp] using (filterMap_ite_sublist_map p f l).cons₂ (f a)
    · simpa [hp] using (filterMap_ite_sublist_map p f l).cons (f a)

/-- The label-selected time stamps form a sublist of the block's time
stamps. -/
theorem labelTimes_sublist (cs : List CommentRow) (block : Int) (label : String) :
    (labelTimes cs block label).Sublist ((blockFilter cs block).map (fun r => r.time_block)) := by
  unfold labelTimes
  have h := filterMap_ite_sublist_map
    (fun r : CommentRow => normLabel r.comment == strUpper label) (fun r => r.time_block)
    (blockFilter cs block)
  have he : (fun r : CommentRow =>
      if normLabel r.comment == strUpper label then some r.time_block else none)
      = fun r => if (normLabel r.comment == strUpper label) = true then some r.time_block
        else none := by
    funext r
    by_cases hb : normLabel r.comment == strUpper label <;> simp [hb]
  rw [← he] at h
  exact h

/-- A sorted list's head is a lower bound for its members. -/
theorem head_le_of_pairwise {l : List ℚ} (hl : l.Pairwise (· ≤ ·)) {x : ℚ}
    (hx : l.head? = some x) : ∀ y ∈ l, x ≤ y := by
  match l with
  | [] => simp at hx
  | a :: l =>
    simp only [List.head?_cons, Option.some.injEq] at hx
    subst hx
    intro y hy
    rcases List.mem_cons.1 hy with rfl | hy
    · exact le_refl y
    · exact (List.pairwise_cons.1 hl).1 y hy

/-- The segmenter's rows, in terms of the pairing loop, whenever any row
at all is produced. -/
theorem cycles_rows_eq (cs : List CommentRow) (block : Int) (li le : String) :
    (cycles_from_comments (some cs) block li le).rows
      = (mkCycleRows (labelTimes cs block li) (labelTimes cs block le)).enum.map
          (fun p => ⟨p.1 + 1, p.2.ti, p.2.te, some p.2.nx⟩)
    ∨ (cycles_from_comments (some cs) block li le).rows = [] := by
  unfold cycles_from_comments
  dsimp only
  split
  · exact Or.inr rfl
  · split
    · exact Or.inr rfl
    · split
      · exact Or.inr rfl
      · exact Or.inl rfl

/-! ### C1 -/

/-- C1, counterexample.  On the events
`[(0,INSPI),(2,EXPI),(5,INSPI),(7,EXPI)]` in block 1 the segmenter
produces a single record `(n_cycle=1, t_insp=0, t_expi=2, t_next_insp=5)`
and not the two records the claim asserts: the loop iterates over
`t_inspi[:-1]`, so the final inspiration onset at 5.0 is never emitted. -/
theorem C1_counterexample :
    (cycles_from_comments
        (some [⟨0, 1, "INSPI"⟩, ⟨2, 1, "EXPI"⟩, ⟨5, 1, "INSPI"⟩, ⟨7, 1, "EXPI"⟩])
        1 "INSPI" "EXPI").rows = [⟨1, 0, 2, some 5⟩]
    ∧ (cycles_from_comments
        (some [⟨0, 1, "INSPI"⟩, ⟨2, 1, "EXPI"⟩, ⟨5, 1, "INSPI"⟩, ⟨7, 1, "EXPI"⟩])
        1 "INSPI" "EXPI").rows.length ≠ 2 := by
  constructor
  · decide
  · decide

/-- C1 as amended: the scenario's events segment into exactly one cycle
record `(t_insp=0.0, t_expi=2.0, t_next_insp=5.0)`; in general the final
inspiration onset of a block is never emitted and every emitted record
carries a present `t_next_insp`. -/
theorem C1_thm :
    (cycles_from_comments
        (some [⟨0, 1, "INSPI"⟩, ⟨2, 1, "EXPI"⟩, ⟨5, 1, "INSPI"⟩, ⟨7, 1, "EXPI"⟩])
        1 "INSPI" "EXPI").rows = [⟨1, 0, 2, some 5⟩]
    ∧ ∀ (cs : Option (List CommentRow)) (block : Int) (li le : String),
        ∀ r ∈ (cycles_from_comments cs block li le).rows, r.t_next_inspi.isSome = true := by
  constructor
  · decide
  · exact cycles_rows_next_some

/-- C1 witness: the amended general clause evaluated on the scenario's
single emitted record. -/
theorem C1_witness :
    ⟨1, 0, 2, some 5⟩ ∈ (cycles_from_comments
        (some [⟨0, 1, "INSPI"⟩, ⟨2, 1, "EXPI"⟩, ⟨5, 1, "INSPI"⟩, ⟨7, 1, "EXPI"⟩])
        1 "INSPI" "EXPI").rows
    ∧ (⟨1, 0, 2, some 5⟩ : CycleRow).t_next_inspi.isSome = true :=
  ⟨by decide, C1_thm.2
    (some [⟨0, 1, "INSPI"⟩, ⟨2, 1, "EXPI"⟩, ⟨5, 1, "INSPI"⟩, ⟨7, 1, "EXPI"⟩])
    1 "INSPI" "EXPI" ⟨1, 0, 2, some 5⟩ (by decide)⟩

/-! ### C3 -/

/-- C3: under the guaranteed within-block monotonicity of event times,
every emitted record pairs its inspiration onset with the first
expiration onset strictly after it (hence `t_insp < t_expi`), and an
inspiration onset with no later expiration onset in the block is never
emitted. -/
theorem C3_thm (cs : List CommentRow) (block : Int) (li le : String)
    (hsort : (((blockFilter cs block).map (fun r => r.time_block)).Pairwise (· ≤ ·))) :
    ∀ r ∈ (cycles_from_comments (some cs) block li le).rows,
      r.t_inspi < r.t_expi
      ∧ r.t_expi ∈ labelTimes cs block le
      ∧ (∀ e ∈ labelTimes cs block le, r.t_inspi < e → r.t_expi ≤ e)
      ∧ (∀ x : ℚ, (∀ e ∈ labelTimes cs block le, ¬ x < e) → r.t_inspi ≠ x) := by
  intro r hr
  have hexp : (labelTimes cs block le).Pairwise (· ≤ ·) :=
    List.Pairwise.sublist (labelTimes_sublist cs block le) hsort
  rcases cycles_rows_eq cs block li le with he | he
  · rw [he] at hr
    simp only [List.mem_map] at hr
    obtain ⟨p, hp, hpr⟩ := hr
    have hmem : p.2 ∈ mkCycleRows (labelTimes cs block li) (labelTimes cs block le) := by
      have := List.mem_map_of_mem Prod.snd hp
      rwa [List.enum_map_snd] at this
    have hhead := mkCycleRows_mem _ _ _ hmem
    have hti : r.t_inspi = p.2.ti := by rw [← hpr]
    have hte : r.t_expi = p.2.te := by rw [← hpr]
    have hfmem : p.2.te ∈ (labelTimes cs block le).filter (fun e => decide (p.2.ti < e)) :=
      List.mem_of_mem_head? hhead
    have hfe := List.mem_filter.1 hfmem
    have hlt : p.2.ti < p.2.te := by
      have := hfe.2
      simpa using this
    have hfsort : ((labelTimes cs block le).filter
        (fun e => decide (p.2.ti < e))).Pairwise (· ≤ ·) := hexp.filter _
    refine ⟨?_, ?_, ?_, ?_⟩
    · rw [hti, hte]; exact hlt
    · rw [hte]; exact hfe.1
    · intro e hel hlte
      rw [hte]
      refine head_le_of_pairwise hfsort hhead e (List.mem_filter.2 ⟨hel, ?_⟩)
      rw [hti] at hlte
      simpa using hlte
    · intro x hx hcontra
      exact hx r.t_expi (hte ▸ hfe.1) (hcontra ▸ (hti ▸ hte ▸ hlt))
  · rw [he] at hr
    simp at hr

/-- C3 witness: the first-later-expiration property evaluated on the
record emitted for the events `[(0,INSPI),(1,EXPI),(3,EXPI),(4,INSPI)]`
in block 1, where the expiration at 1 (not 3) must be chosen. -/
theorem C3_witness :
    (((blockFilter [⟨0, 1, "INSPI"⟩, ⟨1, 1, "EXPI"⟩, ⟨3, 1, "EXPI"⟩, ⟨4, 1, "INSPI"⟩] 1).map
        (fun r => r.time_block)).Pairwise (· ≤ ·))
    ∧ ⟨1, 0, 1, some 4⟩ ∈ (cycles_from_comments
        (some [⟨0, 1, "INSPI"⟩, ⟨1, 1, "EXPI"⟩, ⟨3, 1, "EXPI"⟩, ⟨4, 1, "INSPI"⟩])
        1 "INSPI" "EXPI").rows
    ∧ ((⟨1, 0, 1, some 4⟩ : CycleRow).t_inspi < (⟨1, 0, 1, some 4⟩ : CycleRow).t_expi
      ∧ (⟨1, 0, 1, some 4⟩ : CycleRow).t_expi
          ∈ labelTimes [⟨0, 1, "INSPI"⟩, ⟨1, 1, "EXPI"⟩, ⟨3, 1, "EXPI"⟩, ⟨4, 1, "INSPI"⟩] 1 "EXPI"
      ∧ (∀ e ∈ labelTimes [⟨0, 1, "INSPI"⟩, ⟨1, 1, "EXPI"⟩, ⟨3, 1, "EXPI"⟩, ⟨4, 1, "INSPI"⟩] 1 "EXPI",
          (⟨1, 0, 1, some 4⟩ : CycleRow).t_inspi < e → (⟨1, 0, 1, some 4⟩ : CycleRow).t_expi ≤ e)
      ∧ (∀ x : ℚ,
          (∀ e ∈ labelTimes [⟨0, 1, "INSPI"⟩, ⟨1, 1, "EXPI"⟩, ⟨3, 1, "EXPI"⟩, ⟨4, 1, "INSPI"⟩] 1 "EXPI",
            ¬ x < e) → (⟨1, 0, 1, some 4⟩ : CycleRow).t_inspi ≠ x)) :=
  ⟨by decide, by decide,
    C3_thm [⟨0, 1, "INSPI"⟩, ⟨1, 1, "EXPI"⟩, ⟨3, 1, "EXPI"⟩, ⟨4, 1, "INSPI"⟩] 1 "INSPI" "EXPI"
      (by decide) ⟨1, 0, 1, some 4⟩ (by decide)⟩

/-! ### C9 -/

/-- C9: for a non-empty annotation input whose block-filtered event times
are monotone non-decreasing, the segmenter's `n_cycle` column is exactly
`1..count` in that order and the emitted `t_insp` column is sorted
ascending. -/
theorem C9_thm (cs : List CommentRow) (block : Int) (li le : String)
    (hne : cs ≠ [])
    (hsort : (((blockFilter cs block).map (fun r => r.time_block)).Pairwise (· ≤ ·))) :
    (cycles_from_comments (some cs) block li le).rows.map (fun r => r.n_cycle)
      = List.range' 1 (cycles_from_comments (some cs) block li le).rows.length
    ∧ ((cycles_from_comments (some cs) block li le).rows.map
        (fun r => r.t_inspi)).Pairwise (· ≤ ·) := by
  rcases cycles_rows_eq cs block li le with he | he
  · rw [he]
    constructor
    · rw [List.map_map, List.length_map, List.enum_length, List.range'_eq_map_range]
      have h1 : ((fun r : CycleRow => r.n_cycle) ∘
          (fun p : ℕ × RawCycle => (⟨p.1 + 1, p.2.ti, p.2.te, some p.2.nx⟩ : CycleRow)))
          = (fun i => i + 1) ∘ Prod.fst := rfl
      rw [h1, ← List.map_map, List.enum_map_fst]
      refine List.map_congr_left ?_
      intro a _
      simp [Nat.add_comm]
    · rw [List.map_map]
      have h1 : ((fun r : CycleRow => r.t_inspi) ∘
          (fun p : ℕ × RawCycle => (⟨p.1 + 1, p.2.ti, p.2.te, some p.2.nx⟩ : CycleRow)))
          = (fun r : RawCycle => r.ti) ∘ Prod.snd := rfl
      rw [h1, ← List.map_map, List.enum_map_snd]
      have hsubl :
          ((mkCycleRows (labelTimes cs block li) (labelTimes cs block le)).map
            (fun r => r.ti)).Sublist ((blockFilter cs block).map (fun r => r.time_block)) :=
        (mkCycleRows_ti_sublist _ _).trans (labelTimes_sublist cs block li)
      exact List.Pairwise.sublist hsubl hsort
  · rw [he]
    exact ⟨rfl, List.Pairwise.nil⟩

/-- C9 witness: evaluated on the four-event scenario of block 1. -/
theorem C9_witness :
    ([⟨0, 1, "INSPI"⟩, ⟨2, 1, "EXPI"⟩, ⟨5, 1, "INSPI"⟩, ⟨7, 1, "EXPI"⟩] : List CommentRow) ≠ []
    ∧ (((blockFilter [⟨0, 1, "INSPI"⟩, ⟨2, 1, "EXPI"⟩, ⟨5, 1, "INSPI"⟩, ⟨7, 1, "EXPI"⟩] 1).map
        (fun r => r.time_block)).Pairwise (· ≤ ·))
    ∧ ((cycles_from_comments
          (some [⟨0, 1, "INSPI"⟩, ⟨2, 1, "EXPI"⟩, ⟨5, 1, "INSPI"⟩, ⟨7, 1, "EXPI"⟩])
          1 "INSPI" "EXPI").rows.map (fun r => r.n_cycle)
        = List.range' 1 (cycles_from_comments
          (some [⟨0, 1, "INSPI"⟩, ⟨2, 1, "EXPI"⟩, ⟨5, 1, "INSPI"⟩, ⟨7, 1, "EXPI"⟩])
          1 "INSPI" "EXPI").rows.length
      ∧ ((cycles_from_comments
          (some [⟨0, 1, "INSPI"⟩, ⟨2, 1, "EXPI"⟩, ⟨5, 1, "INSPI"⟩, ⟨7, 1, "EXPI"⟩])
          1 "INSPI" "EXPI").rows.map (fun r => r.t_inspi)).Pairwise (· ≤ ·)) :=
  ⟨by decide, by decide,
    C9_thm [⟨0, 1, "INSPI"⟩, ⟨2, 1, "EXPI"⟩, ⟨5, 1, "INSPI"⟩, ⟨7, 1, "EXPI"⟩] 1 "INSPI" "EXPI"
      (by decide) (by decide)⟩

/-! ### C2 -/

/-- C2, counterexample.  A non-empty waveform table lacking the flow
column does not make the spontaneous engine raise (it returns a normal
row with NaN flow metrics), and a non-empty waveform table lacking the
pressure column makes the mechanical engine return an empty table rather
than raise. -/
theorem C2_counterexample :
    exceptOk (ventilatory_from_cycles (some ⟨[("time_abs", [0, 1])]⟩)
      (some ⟨true, false, true, false, [⟨some 0, some 1, 0⟩]⟩) "Flow" none) = true
    ∧ exceptOk (mechanical_from_cycles (some ⟨[("time_abs", [0, 1]), ("Flow", [60, 60])]⟩)
      (some ⟨true, false, true, false, [⟨some 0, some 1, 0⟩]⟩) "Flow" "Pressure" none
      (1 / 5) (1 / 20) (1 / 10)) = true
    ∧ rowsOfM (mechanical_from_cycles (some ⟨[("time_abs", [0, 1]), ("Flow", [60, 60])]⟩)
      (some ⟨true, false, true, false, [⟨some 0, some 1, 0⟩]⟩) "Flow" "Pressure" none
      (1 / 5) (1 / 20) (1 / 10)) = [] := by
  refine ⟨by decide, by decide, by decide⟩

/-- C2 as amended: the spontaneous engine raises a schema-violation error
exactly for the missing absolute-time column (on non-empty inputs); a
missing flow column does not raise there; and the mechanical engine never
raises for missing waveform columns — it returns the empty
mechanics-schema table when absolute-time, pressure or flow is absent. -/
theorem C2_thm :
    (∀ (d : DF) (cyc : CyclesDF) (fc : String) (vc : Option String),
        d.isEmpty = false → d.hasCol "time_abs" = false → cyc.isEmpty = false →
        exceptOk (ventilatory_from_cycles (some d) (some cyc) fc vc) = false)
    ∧ (∀ (d : DF) (cyc : Option CyclesDF) (fc pc : String) (vc : Option String) (pw th md : ℚ),
        (d.hasCol "time_abs" && d.hasCol pc && d.hasCol fc) = false →
        mechanical_from_cycles (some d) cyc fc pc vc pw th md = .ok ⟨mechSchemaEmpty, []⟩)
    ∧ (∀ (d : DF) (cyc : CyclesDF) (fc : String) (vc : Option String),
        d.hasCol "time_abs" = true → d.hasCol fc = false →
        (cyc.hasTi || cyc.hasTiLegacy) = true → cyc.hasTe = true →
        exceptOk (ventilatory_from_cycles (some d) (some cyc) fc vc) = true) := by
  refine ⟨?_, ?_, ?_⟩
  · intro d cyc fc vc hde hcol hce
    unfold ventilatory_from_cycles
    simp [hde, hce, hcol, CyclesDF.isEmpty] at *
    simp [exceptOk, hde, hce, hcol]
  · intro d cyc fc pc vc pw th md hcols
    unfold mechanical_from_cycles
    simp [hcols]
  · intro d cyc fc vc hcol hfc hti hte
    unfold ventilatory_from_cycles
    by_cases hde : d.isEmpty
    · simp [hde, exceptOk]
    · by_cases hce : cyc.isEmpty
      · simp [hde, hce, exceptOk]
      · simp [hde, hce, hcol, hti, hte, exceptOk]

/-- C2 witness: the amended clauses evaluated on concrete tables — a
non-empty table with only a flow column (spontaneous raise on missing
time), a table with only time and flow (mechanical empty result on
missing pressure), and a table with only time (spontaneous normal result
on missing flow). -/
theorem C2_witness :
    ((⟨[("Flow", [0, 1])]⟩ : DF).isEmpty = false
      ∧ (⟨[("Flow", [0, 1])]⟩ : DF).hasCol "time_abs" = false
      ∧ (⟨true, false, true, false, [⟨some 0, some 1, 0⟩]⟩ : CyclesDF).isEmpty = false
      ∧ exceptOk (ventilatory_from_cycles (some ⟨[("Flow", [0, 1])]⟩)
          (some ⟨true, false, true, false, [⟨some 0, some 1, 0⟩]⟩) "Flow" none) = false)
    ∧ (((⟨[("time_abs", [0, 1]), ("Flow", [60, 60])]⟩ : DF).hasCol "time_abs"
          && (⟨[("time_abs", [0, 1]), ("Flow", [60, 60])]⟩ : DF).hasCol "Pressure"
          && (⟨[("time_abs", [0, 1]), ("Flow", [60, 60])]⟩ : DF).hasCol "Flow") = false
      ∧ mechanical_from_cycles (some ⟨[("time_abs", [0, 1]), ("Flow", [60, 60])]⟩)
          (some ⟨true, false, true, false, [⟨some 0, some 1, 0⟩]⟩) "Flow" "Pressure" none
          (1 / 5) (1 / 20) (1 / 10) = .ok ⟨mechSchemaEmpty, []⟩)
    ∧ ((⟨[("time_abs", [0, 1])]⟩ : DF).hasCol "time_abs" = true
      ∧ (⟨[("time_abs", [0, 1])]⟩ : DF).hasCol "Flow" = false
      ∧ exceptOk (ventilatory_from_cycles (some ⟨[("time_abs", [0, 1])]⟩)
          (some ⟨true, false, true, false, [⟨some 0, some 1, 0⟩]⟩) "Flow" none) = true) :=
  ⟨⟨by decide, by decide, by decide,
      C2_thm.1 ⟨[("Flow", [0, 1])]⟩ ⟨true, false, true, false, [⟨some 0, some 1, 0⟩]⟩ "Flow" none
        (by decide) (by decide) (by decide)⟩,
    ⟨by decide,
      C2_thm.2.1 ⟨[("time_abs", [0, 1]), ("Flow", [60, 60])]⟩
        (some ⟨true, false, true, false, [⟨some 0, some 1, 0⟩]⟩) "Flow" "Pressure" none
        (1 / 5) (1 / 20) (1 / 10) (by decide)⟩,
    ⟨by decide, by decide,
      C2_thm.2.2 ⟨[("time_abs", [0, 1])]⟩ ⟨true, false, true, false, [⟨some 0, some 1, 0⟩]⟩
        "Flow" none (by decide) (by decide) (by decide) (by decide)⟩⟩

/-! ### C8 -/

/-- C8, counterexample.  With a valid non-empty waveform table, the
mechanical engine's empty-cycles output carries only the ten mechanics
columns, while its non-empty outputs carry the nineteen-column combined
schema — so the empty output does not carry the engine's full defined
output schema. -/
theorem C8_counterexample :
    exceptOk (mechanical_from_cycles
        (some ⟨[("time_abs", [0, 1]), ("Pressure", [5, 6]), ("Flow", [60, 60])]⟩)
        (some ⟨true, false, true, false, []⟩) "Flow" "Pressure" none
        (1 / 5) (1 / 20) (1 / 10)) = true
    ∧ colsOfM (mechanical_from_cycles
        (some ⟨[("time_abs", [0, 1]), ("Pressure", [5, 6]), ("Flow", [60, 60])]⟩)
        (some ⟨true, false, true, false, []⟩) "Flow" "Pressure" none
        (1 / 5) (1 / 20) (1 / 10)) = mechSchemaEmpty
    ∧ colsOfM (mechanical_from_cycles
        (some ⟨[("time_abs", [0, 1]), ("Pressure", [5, 6]), ("Flow", [60, 60])]⟩)
        (some ⟨true, false, true, false, [⟨some 0, some 1, 0⟩]⟩) "Flow" "Pressure" none
        (1 / 5) (1 / 20) (1 / 10)) = mechSchemaFull
    ∧ mechSchemaEmpty ≠ mechSchemaFull
    ∧ "Ti" ∉ mechSchemaEmpty := by
  refine ⟨by decide, by decide, by decide, by decide⟩

/-- C8 as amended: empty or absent inputs make the segmenter and the
spontaneous engine return an empty table with their full output schema,
and make the mechanical engine return an empty table with the
mechanics-only schema; none of the three ever raises on such inputs. -/
theorem C8_thm :
    (∀ (cs : Option (List CommentRow)) (block : Int) (li le : String),
        (cs = none ∨ cs = some []) →
        cycles_from_comments cs block li le = ⟨cyclesSchema, []⟩)
    ∧ (∀ (df : Option DF) (cyc : Option CyclesDF) (fc : String) (vc : Option String),
        (df = none ∨ (∃ d, df = some d ∧ d.isEmpty = true)
          ∨ cyc = none ∨ (∃ c, cyc = some c ∧ c.isEmpty = true)) →
        ventilatory_from_cycles df cyc fc vc = .ok ⟨ventSchema, []⟩)
    ∧ (∀ (df : Option DF) (cyc : Option CyclesDF) (fc pc : String) (vc : Option String)
        (pw th md : ℚ),
        (df = none ∨ (∃ d, df = some d ∧ d.isEmpty = true)
          ∨ cyc = none ∨ (∃ c, cyc = some c ∧ c.isEmpty = true)) →
        mechanical_from_cycles df cyc fc pc vc pw th md = .ok ⟨mechSchemaEmpty, []⟩) := by
  refine ⟨?_, ?_, ?_⟩
  · rintro cs block li le (rfl | rfl)
    · rfl
    · rfl
  · rintro df cyc fc vc (rfl | ⟨d, rfl, hde⟩ | rfl | ⟨c, rfl, hce⟩)
    · rfl
    · simp [ventilatory_from_cycles, hde]
    · unfold ventilatory_from_cycles
      rcases df with _ | d
      · rfl
      · by_cases hde : d.isEmpty <;> simp [hde]
    · unfold ventilatory_from_cycles
      rcases df with _ | d
      · rfl
      · by_cases hde : d.isEmpty <;> simp [hde, hce]
  · rintro df cyc fc pc vc pw th md (rfl | ⟨d, rfl, hde⟩ | rfl | ⟨c, rfl, hce⟩)
    · rfl
    · simp [mechanical_from_cycles, hde]
    · unfold mechanical_from_cycles
      rcases df with _ | d
      · rfl
      · by_cases hg : (d.isEmpty || !(d.hasCol "time_abs" && d.hasCol pc && d.hasCol fc)) <;>
          simp [hg]
    · unfold mechanical_from_cycles
      rcases df with _ | d
      · rfl
      · by_cases hg : (d.isEmpty || !(d.hasCol "time_abs" && d.hasCol pc && d.hasCol fc)) <;>
          simp [hg, hce]

/-- C8 witness: the amended clauses evaluated at absent comments, an empty
waveform table and an empty cycle table. -/
theorem C8_witness :
    cycles_from_comments none 1 "INSPI" "EXPI" = ⟨cyclesSchema, []⟩
    ∧ ventilatory_from_cycles (some ⟨[("time_abs", [])]⟩)
        (some ⟨true, false, true, false, [⟨some 0, some 1, 0⟩]⟩) "Flow" none
        = .ok ⟨ventSchema, []⟩
    ∧ mechanical_from_cycles
        (some ⟨[("time_abs", [0, 1]), ("Pressure", [5, 6]), ("Flow", [60, 60])]⟩)
        (some ⟨true, false, true, false, []⟩) "Flow" "Pressure" none (1 / 5) (1 / 20) (1 / 10)
        = .ok ⟨mechSchemaEmpty, []⟩ :=
  ⟨C8_thm.1 none 1 "INSPI" "EXPI" (Or.inl rfl),
    C8_thm.2.1 (some ⟨[("time_abs", [])]⟩)
      (some ⟨true, false, true, false, [⟨some 0, some 1, 0⟩]⟩) "Flow" none
      (Or.inr (Or.inl ⟨⟨[("time_abs", [])]⟩, rfl, by decide⟩)),
    C8_thm.2.2
      (some ⟨[("time_abs", [0, 1]), ("Pressure", [5, 6]), ("Flow", [60, 60])]⟩)
      (some ⟨true, false, true, false, []⟩) "Flow" "Pressure" none (1 / 5) (1 / 20) (1 / 10)
      (Or.inr (Or.inr (Or.inr ⟨⟨true, false, true, false, []⟩, rfl, by decide⟩)))⟩

/-! ### Properties of the nearest-sample lookup -/

/-- The nearest index lies inside a non-empty sample list. -/
theorem nearestIdx_lt : ∀ (v : List ℚ) (x : ℚ), v ≠ [] → nearestIdx v x < v.length
  | [], _, hv => absurd rfl hv
  | [_], _, _ => by simp [nearestIdx]
  | a :: b :: rest, x, _ => by
    rw [nearestIdx]
    have ih := nearestIdx_lt (b :: rest) x (by simp)
    split
    · simpa using Nat.succ_lt_succ ih
    · simp

/-- The nearest index minimises the absolute difference. -/
theorem nearestIdx_min : ∀ (v : List ℚ) (x : ℚ) (j : ℕ), j < v.length →
    |v.getD (nearestIdx v x) 0 - x| ≤ |v.getD j 0 - x|
  | [], _, j, hj => by simp at hj
  | [a], x, j, hj => by
    have hj0 : j = 0 := by
      simp at hj
      omega
    subst hj0
    simp [nearestIdx]
  | a :: b :: rest, x, j, hj => by
    rw [nearestIdx]
    split
    · rename_i hlt
      match j with
      | 0 => exact le_of_lt hlt
      | j + 1 =>
        have := nearestIdx_min (b :: rest) x j (by simpa using Nat.lt_of_succ_lt_succ hj)
        simpa using this
    · rename_i hge
      match j with
      | 0 => exact le_refl _
      | j + 1 =>
        have h1 := nearestIdx_min (b :: rest) x j (by simpa using Nat.lt_of_succ_lt_succ hj)
        have h2 := le_of_not_lt hge
        simpa using le_trans h2 h1

/-- Indices before the nearest index are strictly farther away (numpy's
argmin returns the first minimiser). -/
theorem nearestIdx_first : ∀ (v : List ℚ) (x : ℚ) (j : ℕ), j < nearestIdx v x →
    |v.getD (nearestIdx v x) 0 - x| < |v.getD j 0 - x|
  | [], _, j, hj => by simp [nearestIdx] at hj
  | [_], _, j, hj => by simp [nearestIdx] at hj
  | a :: b :: rest, x, j, hj => by
    rw [nearestIdx] at hj ⊢
    split
    · rename_i hlt
      match j with
      | 0 => exact hlt
      | j + 1 =>
        rw [if_pos hlt] at hj
        have := nearestIdx_first (b :: rest) x j (Nat.lt_of_succ_lt_succ hj)
        simpa using this
    · rename_i hge
      rw [if_neg hge] at hj
      exact absurd hj (Nat.not_lt_zero j)

/-- In a sorted sample list, values are monotone in the index. -/
theorem pairwise_getD_le (v : List ℚ) (hv : v.Pairwise (· ≤ ·)) {i j : ℕ}
    (hij : i ≤ j) (hj : j < v.length) : v.getD i 0 ≤ v.getD j 0 := by
  rcases Nat.lt_or_ge i j with hlt | hge
  · have hi : i < v.length := lt_trans hlt hj
    rw [List.getD_eq_getElem v 0 hi, List.getD_eq_getElem v 0 hj]
    have := List.pairwise_iff_get.1 hv ⟨i, hi⟩ ⟨j, hj⟩ hlt
    simpa [List.get_eq_getElem] using this
  · have : i = j := le_antisymm hij hge
    subst this
    exact le_refl _

/-- The nearest-sample lookup is monotone in the target over a sorted
sample list. -/
theorem nearestIdx_mono (v : List ℚ) (hv : v.Pairwise (· ≤ ·)) {x y : ℚ} (hxy : x ≤ y) :
    nearestIdx v x ≤ nearestIdx v y := by
  by_contra hcon
  push_neg at hcon
  rcases eq_or_ne v [] with rfl | hne
  · simp [nearestIdx] at hcon
  have hi1 : nearestIdx v x < v.length := nearestIdx_lt v x hne
  set i1 := nearestIdx v x with hI1
  set i2 := nearestIdx v y with hI2
  set a := v.getD i2 0 with hA
  set b := v.getD i1 0 with hB
  have hfirst : |b - x| < |a - x| := nearestIdx_first v x i2 hcon
  have hmin : |a - y| ≤ |b - y| := nearestIdx_min v y i1 hi1
  have hab : a ≤ b := pairwise_getD_le v hv (le_of_lt hcon) hi1
  have hanb : a ≠ b := by
    intro h
    rw [h] at hfirst
    exact lt_irrefl _ hfirst
  have haltb : a < b := lt_of_le_of_ne hab hanb
  have hx2 : a + b < 2 * x := by
    have hb1 : b - x ≤ |b - x| := le_abs_self _
    rcases abs_cases (a - x) with ⟨he, h0⟩ | ⟨he, h0⟩
    · rw [he] at hfirst
      linarith
    · rw [he] at hfirst
      linarith
  have hy2 : 2 * y ≤ a + b := by
    have ha1 : y - a ≤ |a - y| := by
      rw [abs_sub_comm]
      exact le_abs_self _
    rcases abs_cases (b - y) with ⟨he, h0⟩ | ⟨he, h0⟩
    · rw [he] at hmin
      linarith
    · rw [he] at hmin
      have ha2 : a - y ≤ |a - y| := le_abs_self _
      linarith
  linarith

/-! ### Properties of the shared cycle preparation -/

/-- The prepared cycles keep the (number, times) payload in order. -/
theorem addNext_map_pair : ∀ (l : List (Int × ℚ × ℚ)),
    (addNext l).map (fun c => (c.n, c.ti, c.te)) = l
  | [] => rfl
  | x :: rest => by
    simp [addNext, addNext_map_pair rest]

/-- Preparation preserves the row count. -/
theorem addNext_length : ∀ (l : List (Int × ℚ × ℚ)), (addNext l).length = l.length
  | [] => rfl
  | _ :: rest => by simp [addNext, addNext_length rest]

/-- The tail of a cons is where a non-degenerate list's last element
lives. -/
theorem getLast?_cons_of_ne_nil {α : Type} (a : α) (L : List α) (h : L ≠ []) :
    (a :: L).getLast? = L.getLast? := by
  cases L with
  | nil => exact absurd rfl h
  | cons b l => exact List.getLast?_cons_cons

/-- The final prepared cycle has no next-inspiration time. -/
theorem addNext_getLast_tn : ∀ (l : List (Int × ℚ × ℚ)) (c : ProcCycle),
    (addNext l).getLast? = some c → c.tn = none
  | [], c, h => by simp [addNext] at h
  | [x], c, h => by
    simp [addNext] at h
    rw [← h]
  | x :: y :: rest, c, h => by
    rw [addNext, getLast?_cons_of_ne_nil _ _ (by
      have hlen : (addNext (y :: rest)).length = rest.length + 1 := by
        rw [addNext_length]
        rfl
      intro hnil
      rw [hnil] at hlen
      simp at hlen)] at h
    exact addNext_getLast_tn (y :: rest) c h

/-- Renumbering keeps the time payload. -/
theorem renumber_map_pair (b : Bool) (l : List (Int × ℚ × ℚ)) :
    (renumber b l).map (fun x => x.2) = l.map (fun x => x.2) := by
  unfold renumber
  split
  · rfl
  · rw [List.map_map]
    have h1 : ((fun x : Int × ℚ × ℚ => x.2) ∘ (fun p : ℕ × (Int × ℚ × ℚ) => ((p.1 : Int) + 1, p.2.2)))
        = (fun x : Int × ℚ × ℚ => x.2) ∘ Prod.snd := rfl
    rw [h1, ← List.map_map, List.enum_map_snd]

/-- Renumbering keeps the row count. -/
theorem renumber_length (b : Bool) (l : List (Int × ℚ × ℚ)) :
    (renumber b l).length = l.length := by
  unfold renumber
  split
  · rfl
  · simp

/-- Without an input `n_cycle` column the numbers become `1..count`. -/
theorem renumber_map_n (l : List (Int × ℚ × ℚ)) :
    (renumber false l).map (fun x => x.1)
      = (List.range l.length).map (fun i : ℕ => (i : Int) + 1) := by
  unfold renumber
  rw [if_neg (by simp), List.map_map]
  have h1 : ((fun x : Int × ℚ × ℚ => x.1) ∘ (fun p : ℕ × (Int × ℚ × ℚ) => ((p.1 : Int) + 1, p.2.2)))
      = (fun i : ℕ => (i : Int) + 1) ∘ Prod.fst := rfl
  rw [h1, ← List.map_map, List.enum_map_fst]


/-- The sort orders the surviving rows by inspiration time. -/
theorem sortCyc_sorted (l : List (Int × ℚ × ℚ)) :
    ((sortCyc l).map (fun x => x.2.1)).Pairwise (· ≤ ·) := by
  haveI h1 : IsTotal (Int × ℚ × ℚ) (fun a b => a.2.1 ≤ b.2.1) :=
    ⟨fun a b => le_total a.2.1 b.2.1⟩
  haveI h2 : IsTrans (Int × ℚ × ℚ) (fun a b => a.2.1 ≤ b.2.1) :=
    ⟨fun _ _ _ hab hbc => le_trans hab hbc⟩
  have hs := List.sorted_insertionSort (fun a b : Int × ℚ × ℚ => a.2.1 ≤ b.2.1) l
  exact List.pairwise_map.2 hs

/-- Sorting keeps the row count. -/
theorem sortCyc_length (l : List (Int × ℚ × ℚ)) : (sortCyc l).length = l.length :=
  (List.perm_insertionSort _ l).length_eq

/-- The prepared cycles' inspiration times are sorted ascending. -/
theorem processCycles_ti_sorted (c : CyclesDF) :
    ((processCycles c).map (fun p => p.ti)).Pairwise (· ≤ ·) := by
  unfold processCycles
  have h1 : (addNext (renumber c.hasN (sortCyc (survivors c)))).map (fun p => p.ti)
      = ((addNext (renumber c.hasN (sortCyc (survivors c)))).map
          (fun p => (p.n, p.ti, p.te))).map (fun x => x.2.1) := by
    rw [List.map_map]; rfl
  rw [h1, addNext_map_pair]
  have h2 : (renumber c.hasN (sortCyc (survivors c))).map (fun x => x.2.1)
      = ((renumber c.hasN (sortCyc (survivors c))).map (fun x => x.2)).map (fun y => y.1) := by
    rw [List.map_map]; rfl
  rw [h2, renumber_map_pair]
  have h3 : ((sortCyc (survivors c)).map (fun x => x.2)).map (fun y => y.1)
      = (sortCyc (survivors c)).map (fun x => x.2.1) := by
    rw [List.map_map]; rfl
  rw [h3]
  exact sortCyc_sorted (survivors c)

/-- The engines process exactly the rows surviving `dropna`. -/
theorem processCycles_length (c : CyclesDF) :
    (processCycles c).length = (survivors c).length := by
  unfold processCycles
  rw [addNext_length, renumber_length, sortCyc_length]

/-- Without an input `n_cycle` column the prepared numbers are `1..count`
in processing order. -/
theorem processCycles_map_n (c : CyclesDF) (h : c.hasN = false) :
    (processCycles c).map (fun p => p.n)
      = (List.range (survivors c).length).map (fun i : ℕ => (i : Int) + 1) := by
  unfold processCycles
  rw [h]
  have h1 : (addNext (renumber false (sortCyc (survivors c)))).map (fun p => p.n)
      = ((addNext (renumber false (sortCyc (survivors c)))).map
          (fun p => (p.n, p.ti, p.te))).map (fun x => x.1) := by
    rw [List.map_map]; rfl
  rw [h1, addNext_map_pair, renumber_map_n, sortCyc_length]

/-! ### The engines' row lists -/

/-- On non-empty inputs with the time column present, the spontaneous
engine's rows are the per-cycle loop mapped over the prepared cycles. -/
theorem vent_rows_eq (d : DF) (cyc : CyclesDF) (fc : String) (vc : Option String)
    (t : List ℚ) (o : VentOut)
    (h : ventilatory_from_cycles (some d) (some cyc) fc vc = .ok o)
    (ht : d.col "time_abs" = some t)
    (hde : d.isEmpty = false) (hce : cyc.isEmpty = false) :
    o.rows = (processCycles cyc).map
      (ventCycle t ((d.col fc).map (fun f => f.map (fun q => q / 60)))
        (vc.bind (fun x => d.col x))) := by
  have hcol : d.hasCol "time_abs" = true := by simp [DF.hasCol, ht]
  unfold ventilatory_from_cycles at h
  dsimp only at h
  rw [if_neg (by simp [hde])] at h
  rw [if_neg (by simp [hce])] at h
  rw [if_neg (by simp [hcol])] at h
  by_cases hti : (cyc.hasTi || cyc.hasTiLegacy)
  · rw [if_neg (by simp [hti])] at h
    by_cases hte : cyc.hasTe
    · rw [if_neg (by simp [hte]), ht] at h
      cases h
      rfl
    · rw [if_pos (by simp [hte])] at h
      simp at h
  · rw [if_pos (by simp [hti])] at h
    simp at h

/-- On non-empty inputs with all mandatory columns present, the
mechanical engine's rows are the per-cycle loop mapped over the prepared
cycles. -/
theorem mech_rows_eq (d : DF) (cyc : CyclesDF) (fc pc : String) (vc : Option String)
    (pw th md : ℚ) (t P F0 : List ℚ) (o : MechOut)
    (h : mechanical_from_cycles (some d) (some cyc) fc pc vc pw th md = .ok o)
    (ht : d.col "time_abs" = some t) (hp : d.col pc = some P) (hf : d.col fc = some F0)
    (hde : d.isEmpty = false) (hce : cyc.isEmpty = false) :
    o.rows = (processCycles cyc).map
      (mechCycle t P (F0.map (fun q => q / 60)) (vc.bind (fun x => d.col x)) pw th md) := by
  have hc1 : d.hasCol "time_abs" = true := by simp [DF.hasCol, ht]
  have hc2 : d.hasCol pc = true := by simp [DF.hasCol, hp]
  have hc3 : d.hasCol fc = true := by simp [DF.hasCol, hf]
  unfold mechanical_from_cycles at h
  dsimp only at h
  rw [if_neg (by simp [hde, hc1, hc2, hc3])] at h
  rw [if_neg (by simp [hce])] at h
  by_cases hti : (cyc.hasTi || cyc.hasTiLegacy)
  · rw [if_neg (by simp [hti])] at h
    by_cases hte : cyc.hasTe
    · rw [if_neg (by simp [hte]), ht, hp, hf] at h
      cases h
      rfl
    · rw [if_pos (by simp [hte])] at h
      simp at h
  · rw [if_pos (by simp [hti])] at h
    simp at h

/-- Composite monotonicity: over a sorted time column, nearest-sample
times are monotone in the target time. -/
theorem nearest_getD_mono (t : List ℚ) (ht : t.Pairwise (· ≤ ·)) {x y : ℚ} (hxy : x ≤ y) :
    t.getD (nearestIdx t x) 0 ≤ t.getD (nearestIdx t y) 0 := by
  rcases eq_or_ne t [] with rfl | hne
  · simp [nearestIdx]
  · exact pairwise_getD_le t ht (nearestIdx_mono t ht hxy) (nearestIdx_lt t y hne)

/-! ### C10 -/

/-- C10: both engines drop boundary rows with a missing inspiration or
expiration time (the output row count is the survivor count), emit rows
whose `t_insp` column is ascending whatever the input row order (the
survivors are re-sorted before processing; the time column is sorted, as
the data model guarantees), and assign `n_cycle = 1..count` after sorting
when the input table has no `n_cycle` column. -/
theorem C10_thm :
    (∀ (d : DF) (cyc : CyclesDF) (fc : String) (vc : Option String) (t : List ℚ) (o : VentOut),
        ventilatory_from_cycles (some d) (some cyc) fc vc = .ok o →
        d.col "time_abs" = some t → d.isEmpty = false → cyc.isEmpty = false →
        t.Pairwise (· ≤ ·) →
        o.rows.length = (survivors cyc).length
        ∧ (o.rows.map (fun r => r.t_insp)).Pairwise (· ≤ ·)
        ∧ (cyc.hasN = false → o.rows.map (fun r => r.n_cycle)
            = (List.range (survivors cyc).length).map (fun i : ℕ => (i : Int) + 1)))
    ∧ (∀ (d : DF) (cyc : CyclesDF) (fc pc : String) (vc : Option String) (pw th md : ℚ)
        (t P F0 : List ℚ) (o : MechOut),
        mechanical_from_cycles (some d) (some cyc) fc pc vc pw th md = .ok o →
        d.col "time_abs" = some t → d.col pc = some P → d.col fc = some F0 →
        d.isEmpty = false → cyc.isEmpty = false →
        t.Pairwise (· ≤ ·) →
        o.rows.length = (survivors cyc).length
        ∧ (o.rows.map (fun r => r.t_insp)).Pairwise (· ≤ ·)
        ∧ (cyc.hasN = false → o.rows.map (fun r => r.n_cycle)
            = (List.range (survivors cyc).length).map (fun i : ℕ => (i : Int) + 1))) := by
  constructor
  · intro d cyc fc vc t o h ht hde hce hts
    rw [vent_rows_eq d cyc fc vc t o h ht hde hce]
    refine ⟨?_, ?_, ?_⟩
    · rw [List.length_map, processCycles_length]
    · rw [List.map_map]
      rw [List.pairwise_map]
      have hkey := List.pairwise_map.1 (processCycles_ti_sorted cyc)
      exact hkey.imp (fun hab => nearest_getD_mono t hts hab)
    · intro hN
      rw [List.map_map]
      have h1 : ((fun r : VentRow => r.n_cycle) ∘
          ventCycle t ((d.col fc).map (fun f => f.map (fun q => q / 60)))
            (vc.bind (fun x => d.col x)))
          = fun p : ProcCycle => p.n := rfl
      rw [h1, processCycles_map_n cyc hN]
  · intro d cyc fc pc vc pw th md t P F0 o h ht hp hf hde hce hts
    rw [mech_rows_eq d cyc fc pc vc pw th md t P F0 o h ht hp hf hde hce]
    refine ⟨?_, ?_, ?_⟩
    · rw [List.length_map, processCycles_length]
    · rw [List.map_map]
      rw [List.pairwise_map]
      have hkey := List.pairwise_map.1 (processCycles_ti_sorted cyc)
      exact hkey.imp (fun hab => nearest_getD_mono t hts hab)
    · intro hN
      rw [List.map_map]
      have h1 : ((fun r : MechRow => r.n_cycle) ∘
          mechCycle t P (F0.map (fun q => q / 60)) (vc.bind (fun x => d.col x)) pw th md)
          = fun p : ProcCycle => p.n := rfl
      rw [h1, processCycles_map_n cyc hN]

/-- C10 witness: both engines evaluated on a two-sample waveform with a
two-row boundary table given in reversed order, the second row lacking
its expiration time. -/
theorem C10_witness :
    ventilatory_from_cycles
        (some ⟨[("time_abs", [0, 1]), ("Pressure", [5, 6]), ("Flow", [60, 60])]⟩)
        (some ⟨true, false, true, false, [⟨some 0, some 1, 0⟩, ⟨some 2, none, 0⟩]⟩)
        "Flow" none
      = .ok ⟨ventSchema, [⟨1, 0, 1, some 1, none, none, none, some (-1), none, some 1, none, none⟩]⟩
    ∧ ([0, 1] : List ℚ).Pairwise (· ≤ ·)
    ∧ ((⟨ventSchema, [⟨1, 0, 1, some 1, none, none, none, some (-1), none, some 1, none, none⟩]⟩
          : VentOut).rows.length
        = (survivors ⟨true, false, true, false, [⟨some 0, some 1, 0⟩, ⟨some 2, none, 0⟩]⟩).length
      ∧ ((⟨ventSchema, [⟨1, 0, 1, some 1, none, none, none, some (-1), none, some 1, none,
            none⟩]⟩ : VentOut).rows.map (fun r => r.t_insp)).Pairwise (· ≤ ·)
      ∧ ((⟨true, false, true, false, [⟨some 0, some 1, 0⟩, ⟨some 2, none, 0⟩]⟩
            : CyclesDF).hasN = false →
          (⟨ventSchema, [⟨1, 0, 1, some 1, none, none, none, some (-1), none, some 1, none,
            none⟩]⟩ : VentOut).rows.map (fun r => r.n_cycle)
          = (List.range (survivors ⟨true, false, true, false,
              [⟨some 0, some 1, 0⟩, ⟨some 2, none, 0⟩]⟩).length).map
              (fun i : ℕ => (i : Int) + 1))) :=
  ⟨by decide, by decide,
    C10_thm.1 ⟨[("time_abs", [0, 1]), ("Pressure", [5, 6]), ("Flow", [60, 60])]⟩
      ⟨true, false, true, false, [⟨some 0, some 1, 0⟩, ⟨some 2, none, 0⟩]⟩ "Flow" none
      [0, 1]
      ⟨ventSchema, [⟨1, 0, 1, some 1, none, none, none, some (-1), none, some 1, none, none⟩]⟩
      (by decide) (by decide) (by decide) (by decide) (by decide)⟩

/-! ### Small evaluation lemmas for the numeric primitives -/

/-- The safe integral is NaN on a degenerate abscissa segment. -/
theorem trapz_none_of_short (y x : List ℚ) (h : x.length < 2) : trapz y x = none := by
  unfold trapz
  rw [if_pos (Or.inr h)]

/-- The safe integral is defined on segments of at least two samples. -/
theorem trapz_isSome (y x : List ℚ) (hy : 2 ≤ y.length) (hx : 2 ≤ x.length) :
    (trapz y x).isSome = true := by
  unfold trapz
  rw [if_neg (by omega)]
  rfl

/-- Length of a Python slice. -/
theorem slice_length (l : List ℚ) (i j : ℕ) : (slice l i j).length = min j l.length - i := by
  unfold slice
  rw [List.length_drop, List.length_take]

/-- A slice starting strictly inside the list and reaching past its start
is non-empty. -/
theorem slice_ne_nil (l : List ℚ) {i j : ℕ} (hij : i < j) (hi : i < l.length) :
    slice l i j ≠ [] := by
  have hlen : (slice l i j).length ≠ 0 := by
    rw [slice_length]
    omega
  intro hcon
  rw [hcon] at hlen
  simp at hlen

/-- The minimum of a non-empty sample list exists. -/
theorem listMin_isSome : ∀ (l : List ℚ), l ≠ [] → (listMin l).isSome = true
  | [], h => absurd rfl h
  | a :: rest, _ => by
    rw [listMin]
    cases listMin rest <;> simp

/-- The maximum of a non-empty sample list exists. -/
theorem listMax_isSome : ∀ (l : List ℚ), l ≠ [] → (listMax l).isSome = true
  | [], h => absurd rfl h
  | a :: rest, _ => by
    rw [listMax]
    cases listMax rest <;> simp

/-- The median of a non-empty sample list exists. -/
theorem median_isSome (l : List ℚ) (h : l ≠ []) : (median l).isSome = true := by
  unfold median
  rw [if_neg (by simpa using h)]
  dsimp only
  split <;> rfl

/-- Mapping preserves the last element. -/
theorem getLast?_map {α β : Type} (f : α → β) :
    ∀ (l : List α), (l.map f).getLast? = l.getLast?.map f
  | [] => rfl
  | [_] => rfl
  | a :: b :: l => by
    rw [List.map_cons, List.map_cons, List.getLast?_cons_cons, ← List.map_cons,
      getLast?_map f (b :: l), List.getLast?_cons_cons]

/-- Mapping preserves definedness of an optional value. -/
theorem isSome_map {α β : Type} (f : α → β) (x : Option α) :
    (Option.map f x).isSome = x.isSome := by
  cases x <;> rfl

/-- On a cycle with no following inspiration time, the spontaneous
per-cycle loop leaves Ttot, Te, BF and PEF undefined. -/
theorem ventCycle_tn_none (t : List ℚ) (flow vol : Option (List ℚ)) (c : ProcCycle)
    (htn : c.tn = none) :
    (ventCycle t flow vol c).Ttot = none ∧ (ventCycle t flow vol c).Te = none
    ∧ (ventCycle t flow vol c).BF = none ∧ (ventCycle t flow vol c).PEF = none := by
  refine ⟨?_, ?_, ?_, ?_⟩ <;> cases flow <;> simp [ventCycle, htn]

/-! ### C6 -/

/-- C6: with a flow channel but no volume channel, each output row's VT is
the negated trapezoidal integral of the per-second flow (the engine's
per-minute input divided by 60) over the inclusive index span from
`min i_insp i_expi` to `max i_insp i_expi`, and the integral is NaN when
that span holds fewer than two samples. -/
theorem C6_thm (d : DF) (cyc : CyclesDF) (fc : String) (vc : Option String)
    (t fl : List ℚ) (o : VentOut)
    (h : ventilatory_from_cycles (some d) (some cyc) fc vc = .ok o)
    (ht : d.col "time_abs" = some t) (hf : d.col fc = some fl)
    (hv : vc.bind (fun x => d.col x) = none)
    (hde : d.isEmpty = false) (hce : cyc.isEmpty = false) :
    ∀ (k : ℕ) (hk : k < (processCycles cyc).length) (r : VentRow),
      o.rows.get? k = some r →
      r.VT = (trapz
          (slice (fl.map (fun q => q / 60)) (idx0 t ((processCycles cyc).get ⟨k, hk⟩))
            (idx1 t ((processCycles cyc).get ⟨k, hk⟩) + 1))
          (slice t (idx0 t ((processCycles cyc).get ⟨k, hk⟩))
            (idx1 t ((processCycles cyc).get ⟨k, hk⟩) + 1))).map (fun s => -s)
      ∧ ((slice t (idx0 t ((processCycles cyc).get ⟨k, hk⟩))
            (idx1 t ((processCycles cyc).get ⟨k, hk⟩) + 1)).length < 2 → r.VT = none) := by
  intro k hk r hr
  rw [vent_rows_eq d cyc fc vc t o h ht hde hce] at hr
  have hfs : ((d.col fc).map (fun f => f.map (fun q => q / 60)))
      = some (fl.map (fun q => q / 60)) := by rw [hf]; rfl
  rw [hfs, hv, List.get?_map, List.get?_eq_get hk, Option.map_some'] at hr
  have hr2 := Option.some.inj hr
  subst hr2
  constructor
  · rfl
  · intro hshort
    have hnone := trapz_none_of_short
      (slice (fl.map (fun q => q / 60)) (idx0 t ((processCycles cyc).get ⟨k, hk⟩))
        (idx1 t ((processCycles cyc).get ⟨k, hk⟩) + 1))
      (slice t (idx0 t ((processCycles cyc).get ⟨k, hk⟩))
        (idx1 t ((processCycles cyc).get ⟨k, hk⟩) + 1)) hshort
    show ((trapz
        (slice (fl.map (fun q => q / 60)) (idx0 t ((processCycles cyc).get ⟨k, hk⟩))
          (idx1 t ((processCycles cyc).get ⟨k, hk⟩) + 1))
        (slice t (idx0 t ((processCycles cyc).get ⟨k, hk⟩))
          (idx1 t ((processCycles cyc).get ⟨k, hk⟩) + 1))).map (fun s => -s)) = none
    rw [hnone]
    rfl

/-- C6 witness: evaluated on a two-sample waveform at constant flow
-60 L/min over one second, where VT must come out as +1 L. -/
theorem C6_witness :
    ventilatory_from_cycles (some ⟨[("time_abs", [0, 1]), ("Flow", [-60, -60])]⟩)
        (some ⟨true, false, true, false, [⟨some 0, some 1, 0⟩]⟩) "Flow" none
      = .ok ⟨ventSchema, [⟨1, 0, 1, some 1, none, none, none, some 1, none, some 1, none, none⟩]⟩
    ∧ ((⟨1, 0, 1, some 1, none, none, none, some 1, none, some 1, none, none⟩ : VentRow).VT
        = (trapz
            (slice ([(-60 : ℚ), -60].map (fun q => q / 60))
              (idx0 [0, 1] ((processCycles
                ⟨true, false, true, false, [⟨some 0, some 1, 0⟩]⟩).get ⟨0, by decide⟩))
              (idx1 [0, 1] ((processCycles
                ⟨true, false, true, false, [⟨some 0, some 1, 0⟩]⟩).get ⟨0, by decide⟩) + 1))
            (slice [0, 1]
              (idx0 [0, 1] ((processCycles
                ⟨true, false, true, false, [⟨some 0, some 1, 0⟩]⟩).get ⟨0, by decide⟩))
              (idx1 [0, 1] ((processCycles
                ⟨true, false, true, false, [⟨some 0, some 1, 0⟩]⟩).get ⟨0, by decide⟩) + 1))).map
            (fun s => -s)) :=
  ⟨by decide,
    (C6_thm ⟨[("time_abs", [0, 1]), ("Flow", [-60, -60])]⟩
      ⟨true, false, true, false, [⟨some 0, some 1, 0⟩]⟩ "Flow" none [0, 1] [-60, -60]
      ⟨ventSchema, [⟨1, 0, 1, some 1, none, none, none, some 1, none, some 1, none, none⟩]⟩
      (by decide) (by decide) (by decide) (by decide) (by decide) (by decide)
      0 (by decide) ⟨1, 0, 1, some 1, none, none, none, some 1, none, some 1, none, none⟩
      (by decide)).1⟩

/-! ### C7 -/

/-- C7, counterexample.  On a single-sample waveform with a finite flow
channel, the final cycle (which has no following inspiration onset) gets
`VT = NaN` — not a finite value as the claim asserts — because the
inspiratory span holds a single sample and the safe integral degenerates;
`Ttot = NaN` identifies the row as the claim's no-next-inspiration case. -/
theorem C7_counterexample :
    (rowsOfV (ventilatory_from_cycles (some ⟨[("time_abs", [0]), ("Flow", [-30])]⟩)
      (some ⟨true, false, true, false, [⟨some 0, some 1, 0⟩]⟩) "Flow" none)).map
        (fun r => r.Ttot) = [none]
    ∧ (rowsOfV (ventilatory_from_cycles (some ⟨[("time_abs", [0]), ("Flow", [-30])]⟩)
      (some ⟨true, false, true, false, [⟨some 0, some 1, 0⟩]⟩) "Flow" none)).map
        (fun r => r.VT) = [none] := by
  refine ⟨by decide, by decide⟩

/-- C7 as amended: the final cycle row (the one with no following
inspiration onset) has `Ttot`, `Te`, `BF`, `PEF` all NaN while `Ti` and
`PIF` are finite (given a finite flow channel as long as the time
column), and `VT` is also finite provided the inspiratory span holds at
least two samples (a degenerate single-sample span leaves `VT` NaN). -/
theorem C7_thm (d : DF) (cyc : CyclesDF) (fc : String) (vc : Option String)
    (t fl : List ℚ) (o : VentOut)
    (h : ventilatory_from_cycles (some d) (some cyc) fc vc = .ok o)
    (ht : d.col "time_abs" = some t) (hf : d.col fc = some fl)
    (hv : vc.bind (fun x => d.col x) = none)
    (hlen : fl.length = t.length) (htne : t ≠ [])
    (hde : d.isEmpty = false) (hce : cyc.isEmpty = false)
    (hpe : processCycles cyc ≠ []) :
    ∃ r, o.rows.getLast? = some r
      ∧ r.Ttot = none ∧ r.Te = none ∧ r.BF = none ∧ r.PEF = none
      ∧ r.Ti.isSome = true ∧ r.PIF.isSome = true
      ∧ (∀ c, (processCycles cyc).getLast? = some c →
          2 ≤ (slice t (idx0 t c) (idx1 t c + 1)).length → r.VT.isSome = true) := by
  have hrows := vent_rows_eq d cyc fc vc t o h ht hde hce
  have hfs : ((d.col fc).map (fun f => f.map (fun q => q / 60)))
      = some (fl.map (fun q => q / 60)) := by rw [hf]; rfl
  rw [hfs, hv] at hrows
  obtain ⟨c, hc⟩ : ∃ c, (processCycles cyc).getLast? = some c := by
    cases hgl : (processCycles cyc).getLast? with
    | none => exact absurd (List.getLast?_eq_none.mp hgl) hpe
    | some c => exact ⟨c, rfl⟩
  have htn : c.tn = none := addNext_getLast_tn _ c hc
  have hi : nearestIdx t c.ti < t.length := nearestIdx_lt t c.ti htne
  have hj : nearestIdx t c.te < t.length := nearestIdx_lt t c.te htne
  have hflen : (fl.map (fun q => q / 60)).length = t.length := by
    rw [List.length_map, hlen]
  have hidx : idx0 t c < (fl.map (fun q => q / 60)).length := by
    rw [hflen]
    calc idx0 t c ≤ idx1 t c := min_le_max
    _ < t.length := max_lt hi hj
  refine ⟨ventCycle t (some (fl.map (fun q => q / 60))) none c, ?_, ?_, ?_, ?_, ?_, ?_, ?_, ?_⟩
  · rw [hrows, getLast?_map, hc]
    rfl
  · exact (ventCycle_tn_none t _ none c htn).1
  · exact (ventCycle_tn_none t _ none c htn).2.1
  · exact (ventCycle_tn_none t _ none c htn).2.2.1
  · exact (ventCycle_tn_none t _ none c htn).2.2.2
  · rfl
  · show ((listMin (slice (fl.map (fun q => q / 60)) (idx0 t c) (idx1 t c + 1))).map
        (fun m => |m|)).isSome = true
    rw [isSome_map]
    exact listMin_isSome _ (slice_ne_nil _ (Nat.lt_succ_of_le min_le_max) hidx)
  · intro c2 hc2 hsl
    have hcc : c2 = c := by
      rw [hc] at hc2
      exact (Option.some.inj hc2).symm
    subst hcc
    show ((trapz
        (slice (fl.map (fun q => q / 60)) (idx0 t c2) (idx1 t c2 + 1))
        (slice t (idx0 t c2) (idx1 t c2 + 1))).map (fun s => -s)).isSome = true
    rw [isSome_map]
    refine trapz_isSome _ _ ?_ hsl
    rw [slice_length] at hsl ⊢
    rw [hflen]
    exact hsl

/-- C7 witness: a three-sample waveform, last cycle with a two-sample
inspiratory span, where Ti, VT and PIF are all defined. -/
theorem C7_witness :
    ventilatory_from_cycles (some ⟨[("time_abs", [0, 1, 2]), ("Flow", [-60, -60, 60])]⟩)
        (some ⟨true, false, true, false, [⟨some 0, some 1, 0⟩]⟩) "Flow" none
      = .ok ⟨ventSchema, [⟨1, 0, 1, some 1, none, none, none, some 1, none, some 1, none, none⟩]⟩
    ∧ ([(0 : ℚ), 1, 2] ≠ [])
    ∧ processCycles ⟨true, false, true, false, [⟨some 0, some 1, 0⟩]⟩ ≠ []
    ∧ (∃ r, (⟨ventSchema, [⟨1, 0, 1, some 1, none, none, none, some 1, none, some 1, none,
          none⟩]⟩ : VentOut).rows.getLast? = some r
        ∧ r.Ttot = none ∧ r.Te = none ∧ r.BF = none ∧ r.PEF = none
        ∧ r.Ti.isSome = true ∧ r.PIF.isSome = true
        ∧ (∀ c, (processCycles
              ⟨true, false, true, false, [⟨some 0, some 1, 0⟩]⟩).getLast? = some c →
            2 ≤ (slice [0, 1, 2] (idx0 [0, 1, 2] c) (idx1 [0, 1, 2] c + 1)).length →
            r.VT.isSome = true)) :=
  ⟨by decide, by decide, by decide,
    C7_thm ⟨[("time_abs", [0, 1, 2]), ("Flow", [-60, -60, 60])]⟩
      ⟨true, false, true, false, [⟨some 0, some 1, 0⟩]⟩ "Flow" none [0, 1, 2] [-60, -60, 60]
      ⟨ventSchema, [⟨1, 0, 1, some 1, none, none, none, some 1, none, some 1, none, none⟩]⟩
      (by decide) (by decide) (by decide) (by decide) (by decide) (by decide) (by decide)
      (by decide) (by decide)⟩

/-! ### C5 -/

/-- A NaN plateau pressure disables static compliance. -/
theorem mechCstat_none_mid (v pe : Option ℚ) : mechCstat v none pe = none := by
  unfold mechCstat
  cases v <;> rfl

/-- A NaN plateau pressure disables the resistance estimate. -/
theorem mechR_none_mid (pk pr : Option ℚ) : mechR pk none pr = none := by
  unfold mechR
  cases pk <;> rfl

/-- A NaN plateau pressure sends driving pressure to the peak-pressure
fallback. -/
theorem mechdP_none_fst (pe pk : Option ℚ) :
    mechdP none pe pk = (match pk, pe with
      | some k, some e => some (k - e)
      | _, _ => none) := by
  unfold mechdP
  cases pe <;> rfl

/-- C5: per cycle, `dP = Pplat - PEEP` when both are defined, else
`Ppeak - PEEP` when both are defined, else NaN; and a cycle with no
qualifying plateau (`Pplat` NaN) has `Cstat` and `R` NaN while `dP` falls
back to `Ppeak - PEEP`. -/
theorem C5_thm (t P F : List ℚ) (vol : Option (List ℚ)) (pw th md : ℚ) (c : ProcCycle) :
    (mechCycle t P F vol pw th md c).dP
      = (match (mechCycle t P F vol pw th md c).Pplat,
          (mechCycle t P F vol pw th md c).PEEP with
        | some pp, some pe => some (pp - pe)
        | _, _ =>
          match (mechCycle t P F vol pw th md c).Ppeak,
            (mechCycle t P F vol pw th md c).PEEP with
          | some pk, some pe => some (pk - pe)
          | _, _ => none)
    ∧ ((mechCycle t P F vol pw th md c).Pplat = none →
        (mechCycle t P F vol pw th md c).Cstat = none
        ∧ (mechCycle t P F vol pw th md c).R = none
        ∧ (mechCycle t P F vol pw th md c).dP
          = (match (mechCycle t P F vol pw th md c).Ppeak,
              (mechCycle t P F vol pw th md c).PEEP with
            | some pk, some pe => some (pk - pe)
            | _, _ => none)) := by
  have epp : (mechCycle t P F vol pw th md c).Pplat
      = mechPplat t P F (idx0 t c) (idx1 t c) th md := rfl
  have epe : (mechCycle t P F vol pw th md c).PEEP = mechPEEP t P pw c.ti := rfl
  have epk : (mechCycle t P F vol pw th md c).Ppeak
      = mechPpeak P (idx0 t c) (idx1 t c) := rfl
  have edp : (mechCycle t P F vol pw th md c).dP
      = mechdP (mechPplat t P F (idx0 t c) (idx1 t c) th md) (mechPEEP t P pw c.ti)
          (mechPpeak P (idx0 t c) (idx1 t c)) := rfl
  have ecs : (mechCycle t P F vol pw th md c).Cstat
      = mechCstat (mechVT t F vol (idx0 t c) (idx1 t c))
          (mechPplat t P F (idx0 t c) (idx1 t c) th md) (mechPEEP t P pw c.ti) := rfl
  have erv : (mechCycle t P F vol pw th md c).R
      = mechR (mechPpeak P (idx0 t c) (idx1 t c))
          (mechPplat t P F (idx0 t c) (idx1 t c) th md)
          (mechPpeak F (idx0 t c) (idx1 t c)) := rfl
  constructor
  · rw [edp, epp, epe, epk]
    rfl
  · intro hp
    rw [epp] at hp
    refine ⟨?_, ?_, ?_⟩
    · rw [ecs, hp]
      exact mechCstat_none_mid _ _
    · rw [erv, hp]
      exact mechR_none_mid _ _
    · rw [edp, hp, epe, epk, mechdP_none_fst]

/-- C5 witness: a two-sample cycle with no low-flow plateau sample, where
`Pplat` is NaN and the fallback applies. -/
theorem C5_witness :
    (mechCycle [0, 1] [5, 10] [1, 1] none (1 / 5) (1 / 20) (1 / 10) ⟨1, 0, 1, none⟩).Pplat = none
    ∧ ((mechCycle [0, 1] [5, 10] [1, 1] none (1 / 5) (1 / 20) (1 / 10) ⟨1, 0, 1, none⟩).Cstat
        = none
      ∧ (mechCycle [0, 1] [5, 10] [1, 1] none (1 / 5) (1 / 20) (1 / 10) ⟨1, 0, 1, none⟩).R = none
      ∧ (mechCycle [0, 1] [5, 10] [1, 1] none (1 / 5) (1 / 20) (1 / 10) ⟨1, 0, 1, none⟩).dP
        = (match (mechCycle [0, 1] [5, 10] [1, 1] none (1 / 5) (1 / 20) (1 / 10)
              ⟨1, 0, 1, none⟩).Ppeak,
            (mechCycle [0, 1] [5, 10] [1, 1] none (1 / 5) (1 / 20) (1 / 10)
              ⟨1, 0, 1, none⟩).PEEP with
          | some pk, some pe => some (pk - pe)
          | _, _ => none)) :=
  ⟨by decide,
    (C5_thm [0, 1] [5, 10] [1, 1] none (1 / 5) (1 / 20) (1 / 10) ⟨1, 0, 1, none⟩).2 (by decide)⟩

/-! ### C4: the plateau-run selection -/

/-- Invariant of the run-selection fold: a `none` result means no
qualifying run was seen, and a `some` result is a qualifying run whose
duration dominates every qualifying run seen. -/
theorem bestStep_fold (t : List ℚ) (minDur : ℚ) (h0 : 0 < minDur) :
    ∀ (rs : List (ℕ × ℕ)) (acc : Option (ℕ × ℕ) × ℚ),
      (acc.1 = none → acc.2 = 0) →
      (∀ ab, acc.1 = some ab → minDur ≤ runDur t ab ∧ acc.2 = runDur t ab) →
      ((rs.foldl (bestStep t minDur) acc).1 = none →
        rs.foldl (bestStep t minDur) acc = acc ∧ ∀ ab ∈ rs, ¬ minDur ≤ runDur t ab)
      ∧ (∀ ab, (rs.foldl (bestStep t minDur) acc).1 = some ab →
          (ab ∈ rs ∨ acc.1 = some ab) ∧ minDur ≤ runDur t ab
          ∧ (rs.foldl (bestStep t minDur) acc).2 = runDur t ab)
      ∧ (∀ ab ∈ rs, minDur ≤ runDur t ab → runDur t ab ≤ (rs.foldl (bestStep t minDur) acc).2)
      ∧ acc.2 ≤ (rs.foldl (bestStep t minDur) acc).2 := by
  intro rs
  induction rs with
  | nil =>
    intro acc hnone hsome
    refine ⟨fun _ => ⟨rfl, by simp⟩, ?_, by simp, le_refl _⟩
    intro ab hab
    exact ⟨Or.inr hab, (hsome ab hab).1, (hsome ab hab).2⟩
  | cons x rs ih =>
    intro acc hnone hsome
    rw [List.foldl_cons]
    by_cases hcond : minDur ≤ runDur t x ∧ acc.2 < runDur t x
    · have hacc : bestStep t minDur acc x = (some x, runDur t x) := by
        unfold bestStep
        rw [if_pos hcond]
      rw [hacc]
      have ih2 := ih (some x, runDur t x) (by intro h; simp at h)
        (by
          intro ab hab
          have : x = ab := Option.some.inj hab
          subst this
          exact ⟨hcond.1, rfl⟩)
      obtain ⟨ih2a, ih2b, ih2c, ih2d⟩ := ih2
      refine ⟨?_, ?_, ?_, ?_⟩
      · intro hres
        obtain ⟨heq, _⟩ := ih2a hres
        rw [heq] at hres
        simp at hres
      · intro ab hres
        obtain ⟨hm, hq, hd⟩ := ih2b ab hres
        refine ⟨?_, hq, hd⟩
        rcases hm with hm | hm
        · exact Or.inl (List.mem_cons_of_mem x hm)
        · have hx : x = ab := Option.some.inj hm
          subst hx
          exact Or.inl (List.mem_cons_self x rs)
      · intro ab hab hq
        rcases List.mem_cons.1 hab with rfl | hab
        · calc runDur t ab = (some ab, runDur t ab).2 := rfl
          _ ≤ _ := ih2d
        · exact ih2c ab hab hq
      · calc acc.2 ≤ runDur t x := le_of_lt hcond.2
        _ = (some x, runDur t x).2 := rfl
        _ ≤ _ := ih2d
    · have hacc : bestStep t minDur acc x = acc := by
        unfold bestStep
        rw [if_neg hcond]
      rw [hacc]
      have hxled : minDur ≤ runDur t x → runDur t x ≤ acc.2 := by
        intro hq
        by_contra hlt
        push_neg at hlt
        exact hcond ⟨hq, hlt⟩
      obtain ⟨ih2a, ih2b, ih2c, ih2d⟩ := ih acc hnone hsome
      refine ⟨?_, ?_, ?_, ih2d⟩
      · intro hres
        obtain ⟨heq, hnq⟩ := ih2a hres
        refine ⟨heq, ?_⟩
        intro ab hab
        rcases List.mem_cons.1 hab with rfl | hab
        · intro hq
          have h1 : acc.1 = none := by
            rw [heq] at hres
            exact hres
          have h2 := hnone h1
          have := hxled hq
          rw [h2] at this
          exact absurd (lt_of_lt_of_le h0 (le_trans hq this)) (lt_irrefl 0)
        · exact hnq ab hab
      · intro ab hres
        obtain ⟨hm, hq, hd⟩ := ih2b ab hres
        refine ⟨?_, hq, hd⟩
        rcases hm with hm | hm
        · exact Or.inl (List.mem_cons_of_mem x hm)
        · exact Or.inr hm
      · intro ab hab hq
        rcases List.mem_cons.1 hab with rfl | hab
        · exact le_trans (hxled hq) ih2d
        · exact ih2c ab hab hq

/-- A `none` selection means no run qualified. -/
theorem bestRun_eq_none (t : List ℚ) (runs : List (ℕ × ℕ)) (minDur : ℚ)
    (h0 : 0 < minDur) (h : bestRun t runs minDur = none) :
    ∀ ab ∈ runs, ¬ minDur ≤ runDur t ab := by
  unfold bestRun at h
  exact ((bestStep_fold t minDur h0 runs ((none : Option (ℕ × ℕ)), 0) (fun _ => rfl)
    (fun ab hab => by simp at hab)).1 h).2

/-- A `some` selection is a qualifying run of maximal duration. -/
theorem bestRun_eq_some (t : List ℚ) (runs : List (ℕ × ℕ)) (minDur : ℚ)
    (h0 : 0 < minDur) (ab : ℕ × ℕ) (h : bestRun t runs minDur = some ab) :
    ab ∈ runs ∧ minDur ≤ runDur t ab
    ∧ ∀ cd ∈ runs, minDur ≤ runDur t cd → runDur t cd ≤ runDur t ab := by
  unfold bestRun at h
  have hsf := bestStep_fold t minDur h0 runs ((none : Option (ℕ × ℕ)), 0) (fun _ => rfl)
    (fun ab hab => by simp at hab)
  obtain ⟨hm, hq, hd⟩ := hsf.2.1 ab h
  have hmem : ab ∈ runs := by
    rcases hm with hm | hm
    · exact hm
    · simp at hm
  refine ⟨hmem, hq, ?_⟩
  intro cd hcd hqcd
  have := hsf.2.2.1 cd hcd hqcd
  rw [hd] at this
  exact this

/-- Helper of the run-grouping bound: runs drawn from a pool stay in the
pool and are well-ordered. -/
theorem groupRunsGo_mem (S : List ℕ) :
    ∀ (rest : List ℕ) (start cur : ℕ), start ∈ S → cur ∈ S → (∀ x ∈ rest, x ∈ S) →
      start ≤ cur →
      ∀ p ∈ groupRunsGo start cur rest, p.1 ∈ S ∧ p.2 ∈ S ∧ p.1 ≤ p.2
  | [], start, cur, hs, hc, _, hsc, p, hp => by
    rw [groupRunsGo] at hp
    rcases List.mem_singleton.1 hp with rfl
    exact ⟨hs, hc, hsc⟩
  | b :: rest, start, cur, hs, hc, hr, hsc, p, hp => by
    rw [groupRunsGo] at hp
    split at hp
    · rename_i hb
      exact groupRunsGo_mem S rest start b hs (hr b (List.mem_cons_self b rest))
        (fun x hx => hr x (List.mem_cons_of_mem b hx)) (by omega) p hp
    · rcases List.mem_cons.1 hp with rfl | hp
      · exact ⟨hs, hc, hsc⟩
      · exact groupRunsGo_mem S rest b b (hr b (List.mem_cons_self b rest))
          (hr b (List.mem_cons_self b rest)) (fun x hx => hr x (List.mem_cons_of_mem b hx))
          (le_refl b) p hp

/-- Each maximal run's endpoints belong to the grouped index list, with
the start at most the end. -/
theorem groupRuns_mem (l : List ℕ) (p : ℕ × ℕ) (hp : p ∈ groupRuns l) :
    p.1 ∈ l ∧ p.2 ∈ l ∧ p.1 ≤ p.2 := by
  cases l with
  | nil => simp [groupRuns] at hp
  | cons a rest =>
    exact groupRunsGo_mem (a :: rest) rest a a (List.mem_cons_self a rest)
      (List.mem_cons_self a rest) (fun x hx => List.mem_cons_of_mem a hx) (le_refl a) p hp

/-- Low-flow window indices are sample indices. -/
theorem lowFlowIdx_lt (t F : List ℚ) (i0 i1 : ℕ) (th : ℚ) :
    ∀ j ∈ lowFlowIdx t F i0 i1 th, j < t.length := by
  intro j hj
  unfold lowFlowIdx at hj
  dsimp only at hj
  exact List.mem_range.1 (List.mem_filter.1 hj).1

/-- C4: per cycle (with a positive `plateau_min_dur` and a pressure
column as long as the time column), `Pplat` is NaN exactly when no
contiguous run of trailing-window low-flow samples lasts at least
`plateau_min_dur`; and when `Pplat` is defined it is the median pressure
over a qualifying run of maximal duration. -/
theorem C4_thm (t P F : List ℚ) (vol : Option (List ℚ)) (pw th md : ℚ) (c : ProcCycle)
    (hmd : 0 < md) (hlen : P.length = t.length) :
    ((mechCycle t P F vol pw th md c).Pplat = none
      ↔ qualRuns t F (idx0 t c) (idx1 t c) th md = [])
    ∧ (∀ v, (mechCycle t P F vol pw th md c).Pplat = some v →
        ∃ ab ∈ qualRuns t F (idx0 t c) (idx1 t c) th md,
          (∀ cd ∈ qualRuns t F (idx0 t c) (idx1 t c) th md, runDur t cd ≤ runDur t ab)
          ∧ median (slice P ab.1 (ab.2 + 1)) = some v) := by
  have epp : (mechCycle t P F vol pw th md c).Pplat
      = mechPplat t P F (idx0 t c) (idx1 t c) th md := rfl
  rw [epp]
  unfold mechPplat qualRuns
  cases hb : bestRun t (groupRuns (lowFlowIdx t F (idx0 t c) (idx1 t c) th)) md with
  | none =>
    have hnq := bestRun_eq_none t _ md hmd hb
    refine ⟨⟨fun _ => ?_, fun _ => rfl⟩, fun v hv => ?_⟩
    · refine List.filter_eq_nil.2 ?_
      intro ab hab
      simp only [decide_eq_true_eq]
      exact hnq ab hab
    · simp at hv
  | some ab =>
    obtain ⟨hmem, hq, hdom⟩ := bestRun_eq_some t _ md hmd ab hb
    have hgm := groupRuns_mem (lowFlowIdx t F (idx0 t c) (idx1 t c) th) ab hmem
    have hlt : ab.1 < t.length :=
      lowFlowIdx_lt t F (idx0 t c) (idx1 t c) th ab.1 hgm.1
    have hltP : ab.1 < P.length := by
      rw [hlen]
      exact hlt
    have hmed := median_isSome (slice P ab.1 (ab.2 + 1))
      (slice_ne_nil P (Nat.lt_succ_of_le hgm.2.2) hltP)
    obtain ⟨m, hm⟩ := Option.isSome_iff_exists.1 hmed
    have habQ : ab ∈ (groupRuns (lowFlowIdx t F (idx0 t c) (idx1 t c) th)).filter
        (fun ab => decide (md ≤ runDur t ab)) :=
      List.mem_filter.2 ⟨hmem, by simpa using hq⟩
    refine ⟨⟨fun hnone => ?_, fun hq0 => ?_⟩, fun v hv => ?_⟩
    · rw [Option.some_bind, hm] at hnone
      exact absurd hnone (by simp)
    · rw [hq0] at habQ
      simp at habQ
    · rw [Option.some_bind] at hv
      refine ⟨ab, habQ, ?_, hv⟩
      intro cd hcd
      have hcd2 := List.mem_filter.1 hcd
      exact hdom cd hcd2.1 (by simpa using hcd2.2)

/-- C4 witness: an eleven-sample inspiration whose final 0.3 s has zero
flow; the plateau run (7,10) qualifies and its median pressure defines
Pplat. -/
theorem C4_witness :
    (0 : ℚ) < 1 / 10
    ∧ ([(25 : ℚ), 25, 25, 25, 25, 25, 25, 25, 25, 25, 25].length
        = [(0 : ℚ), 1/10, 2/10, 3/10, 4/10, 5/10, 6/10, 7/10, 8/10, 9/10, 1].length)
    ∧ (((mechCycle [0, 1/10, 2/10, 3/10, 4/10, 5/10, 6/10, 7/10, 8/10, 9/10, 1]
          [25, 25, 25, 25, 25, 25, 25, 25, 25, 25, 25]
          [1, 1, 1, 1, 1, 1, 1, 0, 0, 0, 0] none (1/5) (1/20) (1/10)
          ⟨1, 0, 1, none⟩).Pplat = none
        ↔ qualRuns [0, 1/10, 2/10, 3/10, 4/10, 5/10, 6/10, 7/10, 8/10, 9/10, 1]
            [1, 1, 1, 1, 1, 1, 1, 0, 0, 0, 0]
            (idx0 [0, 1/10, 2/10, 3/10, 4/10, 5/10, 6/10, 7/10, 8/10, 9/10, 1] ⟨1, 0, 1, none⟩)
            (idx1 [0, 1/10, 2/10, 3/10, 4/10, 5/10, 6/10, 7/10, 8/10, 9/10, 1] ⟨1, 0, 1, none⟩)
            (1/20) (1/10) = [])
    ∧ (∀ v, (mechCycle [0, 1/10, 2/10, 3/10, 4/10, 5/10, 6/10, 7/10, 8/10, 9/10, 1]
          [25, 25, 25, 25, 25, 25, 25, 25, 25, 25, 25]
          [1, 1, 1, 1, 1, 1, 1, 0, 0, 0, 0] none (1/5) (1/20) (1/10)
          ⟨1, 0, 1, none⟩).Pplat = some v →
        ∃ ab ∈ qualRuns [0, 1/10, 2/10, 3/10, 4/10, 5/10, 6/10, 7/10, 8/10, 9/10, 1]
            [1, 1, 1, 1, 1, 1, 1, 0, 0, 0, 0]
            (idx0 [0, 1/10, 2/10, 3/10, 4/10, 5/10, 6/10, 7/10, 8/10, 9/10, 1] ⟨1, 0, 1, none⟩)
            (idx1 [0, 1/10, 2/10, 3/10, 4/10, 5/10, 6/10, 7/10, 8/10, 9/10, 1] ⟨1, 0, 1, none⟩)
            (1/20) (1/10),
          (∀ cd ∈ qualRuns [0, 1/10, 2/10, 3/10, 4/10, 5/10, 6/10, 7/10, 8/10, 9/10, 1]
              [1, 1, 1, 1, 1, 1, 1, 0, 0, 0, 0]
              (idx0 [0, 1/10, 2/10, 3/10, 4/10, 5/10, 6/10, 7/10, 8/10, 9/10, 1] ⟨1, 0, 1, none⟩)
              (idx1 [0, 1/10, 2/10, 3/10, 4/10, 5/10, 6/10, 7/10, 8/10, 9/10, 1] ⟨1, 0, 1, none⟩)
              (1/20) (1/10),
            runDur [0, 1/10, 2/10, 3/10, 4/10, 5/10, 6/10, 7/10, 8/10, 9/10, 1] cd
              ≤ runDur [0, 1/10, 2/10, 3/10, 4/10, 5/10, 6/10, 7/10, 8/10, 9/10, 1] ab)
          ∧ median (slice [25, 25, 25, 25, 25, 25, 25, 25, 25, 25, 25] ab.1 (ab.2 + 1))
              = some v)) :=
  ⟨by decide, by decide,
    C4_thm [0, 1/10, 2/10, 3/10, 4/10, 5/10, 6/10, 7/10, 8/10, 9/10, 1]
      [25, 25, 25, 25, 25, 25, 25, 25, 25, 25, 25]
      [1, 1, 1, 1, 1, 1, 1, 0, 0, 0, 0] none (1/5) (1/20) (1/10) ⟨1, 0, 1, none⟩
      (by decide) (by decide)⟩

end RatEval

end RespMetrics
